import Mathlib

/-!
Verification development for the Performance-Cycle "Frequently Bought Together"
recommendation engine.

Products are identified by free-text slugs, modelled as `List Char` so that the
Python string operations (strip/lower/split/substring) have transparent,
inductively analysable counterparts.  Python's `str.isalpha`/`str.isdigit` are
modelled by the ASCII classifiers `Char.isAlpha`/`Char.isDigit` (slugs are
ASCII), and Python's stable `sorted` is modelled by the stable structural
`List.insertionSort`.
-/

abbrev Slug := List Char

/-- Python `str.strip()`: drop whitespace from both ends. -/
def trimL (l : Slug) : Slug :=
  ((l.dropWhile Char.isWhitespace).reverse.dropWhile Char.isWhitespace).reverse

/-- Python `str.lower()` (ASCII model). -/
def lowerL (l : Slug) : Slug := l.map Char.toLower

/-- Association-list find, modelling Python `dict.get`. -/
def assocFind {κ β : Type} [DecidableEq κ] (l : List (κ × β)) (k : κ) : Option β :=
  match l.find? (fun e => decide (e.1 = k)) with
  | some e => some e.2
  | none => none

/-- Association-list insert-or-replace, modelling Python `dict.__setitem__`
(an existing key keeps its position, as in CPython dicts). -/
def assocUpsert {κ β : Type} [DecidableEq κ] (l : List (κ × β)) (k : κ) (v : β) :
    List (κ × β) :=
  match l with
  | [] => [(k, v)]
  | (k', v') :: rest => if k' = k then (k', v) :: rest else (k', v') :: assocUpsert rest k v

/-- Python `set.isdisjoint` on token lists (duplicates are irrelevant). -/
def listDisjoint (a b : List Slug) : Prop := ∀ x ∈ a, x ∉ b

instance (a b : List Slug) : Decidable (listDisjoint a b) :=
  List.decidableBAll _ a

/-- Python `text.split(sep)` for a one-character separator. -/
def splitOnChar (sep : Char) : Slug → List Slug
  | [] => [[]]
  | c :: rest =>
    match splitOnChar sep rest with
    | [] => [[]]
    | t :: ts => if c = sep then [] :: t :: ts else (c :: t) :: ts

/- ===================== api_server.py ===================== -/

/-- `_normalize_slug_text` from api_server.py: `(value or "").strip().lower()`. -/
def normalizeSlugText (s : Slug) : Slug := lowerL (trimL s)

/-- `PRODUCT_TYPE_RULES` from api_server.py (ordered; first match wins). -/
def productTypeRules : List (Slug × List Slug) :=
  [ ("helmet_accessory".data,
      ["visor".data, "face-shield".data, "faceshield".data, "shield".data,
       "pinlock".data, "cheekpad".data, "cheek-pad".data, "cheek pad".data]),
    ("helmet".data, ["helmet".data]),
    ("jacket".data, ["jacket".data, "coat".data, "parka".data]),
    ("pants".data, ["pant".data, "trouser".data, "bibs".data]),
    ("gloves".data, ["glove".data, "gauntlet".data]),
    ("boots".data, ["boot".data, "shoe".data]) ]

/-- Shared shape of `_detect_product_type` / `detect_type`: scan an ordered rule
table, return the first type any of whose keywords is a substring of `text`. -/
def classifyRules : List (Slug × List Slug) → Slug → Slug
  | [], _ => "unknown".data
  | (typeName, keywords) :: rest, text =>
    if keywords.any (fun kw => decide (kw <:+: text)) then typeName
    else classifyRules rest text

/-- `_detect_product_type` from api_server.py. -/
def detectProductType (slug : Slug) : Slug :=
  classifyRules productTypeRules (normalizeSlugText slug)

/-- Python `token.isdigit()` (nonempty, all digits). -/
def pyIsDigit (t : Slug) : Bool := !t.isEmpty && t.all Char.isDigit

/-- `_extract_brand_token` from api_server.py: the first hyphen-token of the
normalized slug that is not all digits and contains a letter; `""` if none. -/
def extractBrandToken (slug : Slug) : Slug :=
  let tokens := (splitOnChar '-' (normalizeSlugText slug)).filter (fun t => !t.isEmpty)
  (tokens.find? (fun t => !pyIsDigit t && t.any Char.isAlpha)).getD []

/-- `PRIORITY_RANK.get(p, 99)` from api_server.py. -/
def priorityRank (p : Slug) : Nat :=
  if p = "Primary".data then 0
  else if p = "Secondary".data then 1
  else if p = "Tertiary".data then 2
  else 99

structure RecEntry where
  id : Slug
  label : Slug
  priority : Slug
deriving DecidableEq

/-- Sort key relation used by `_sort_by_priority` (rank of stripped priority). -/
def priorityLE (a b : RecEntry) : Prop :=
  priorityRank (trimL a.priority) ≤ priorityRank (trimL b.priority)

instance : DecidableRel priorityLE := fun _ _ => Nat.decLe _ _

/-- `_sort_by_priority` from api_server.py (Python's stable sort modelled by
stable insertion sort). -/
def sortByPriority (recs : List RecEntry) : List RecEntry :=
  recs.insertionSort priorityLE

/-- `PER_PRODUCT_RECOMMENDATION_LIMIT` from api_server.py. -/
def perProductLimit : Nat := 3

/-- `RUNTIME_COMPLEMENTARY_TYPES` from api_server.py. -/
def runtimeComplementaryTypes : List (Slug × List Slug) :=
  [ ("pants".data, ["jacket".data, "gloves".data, "boots".data, "helmet".data]),
    ("jacket".data, ["pants".data, "gloves".data, "boots".data, "helmet".data]),
    ("helmet".data, ["helmet_accessory".data, "gloves".data, "jacket".data, "boots".data]),
    ("gloves".data, ["jacket".data, "pants".data, "helmet".data, "boots".data]),
    ("boots".data, ["jacket".data, "pants".data, "gloves".data, "helmet".data]) ]

/-- The global per-type candidate pool `_GLOBAL_REC_BY_TYPE`, passed explicitly. -/
abbrev Pool := List (Slug × List Slug)

def poolGet (pool : Pool) (recType : Slug) : List Slug :=
  (assocFind pool recType).getD []

/-- `source_type in {"jacket", "pants"}`. -/
def srcJP (t : Slug) : Bool := decide (t = "jacket".data) || decide (t = "pants".data)

/-- `rec_type in {"jacket", "pants", "gloves"}`. -/
def recJPG (t : Slug) : Bool :=
  decide (t = "jacket".data) || decide (t = "pants".data) || decide (t = "gloves".data)

/-- The brand-consistency filter shared by `_apply_recommendation_constraints`,
`_pick_global_candidate` and `_pick_global_candidate_any`: an apparel source may
not take a differently-branded apparel/glove candidate when both brands are known. -/
def passesBrandFilter (sourceType sourceBrand recType rid : Slug) : Bool :=
  !(srcJP sourceType && recJPG recType && decide (sourceBrand ≠ []) &&
    decide (extractBrandToken rid ≠ []) && decide (sourceBrand ≠ extractBrandToken rid))

/-- `_pick_global_candidate` from api_server.py. -/
def pickGlobalCandidate (pool : Pool) (sourceType sourceBrand recType : Slug)
    (selectedIds : List Slug) : Slug :=
  let candidates := poolGet pool recType
  let generic : Slug :=
    (candidates.find? (fun rid => decide (rid ∉ selectedIds) &&
      passesBrandFilter sourceType sourceBrand recType rid)).getD []
  if srcJP sourceType && decide (recType = "gloves".data) then
    match candidates.find? (fun rid => decide (rid ∉ selectedIds) &&
        decide (sourceBrand ≠ []) && decide (extractBrandToken rid = sourceBrand)) with
    | some rid => rid
    | none =>
      match candidates.find? (fun rid => decide (rid ∉ selectedIds) &&
          decide (extractBrandToken rid = "alpinestars".data)) with
      | some rid => rid
      | none => generic
  else generic

/-- `_pick_global_candidate_any` from api_server.py. -/
def pickGlobalCandidateAny (sourceType sourceBrand : Slug)
    (selectedIds usedTypes : List Slug) : Pool → Slug × Slug
  | [] => ([], [])
  | (recType, candidates) :: rest =>
    if recType ∈ usedTypes then
      pickGlobalCandidateAny sourceType sourceBrand selectedIds usedTypes rest
    else
      match candidates.find? (fun rid => decide (rid ∉ selectedIds) &&
          passesBrandFilter sourceType sourceBrand recType rid) with
      | some rid => (rid, recType)
      | none => pickGlobalCandidateAny sourceType sourceBrand selectedIds usedTypes rest

/-- Selection state of `_apply_recommendation_constraints`:
`selected`, `selected_ids`, `seen_types` (the two trackers as LIFO lists). -/
structure SelState where
  selected : List RecEntry
  selectedIds : List Slug
  seenTypes : List Slug

/-- Backfilled entries get a synthetic label and Tertiary priority. -/
def mkBackfill (rid : Slug) : RecEntry :=
  ⟨rid, "Recommended item".data, "Tertiary".data⟩

/-- Phase 1 of `_apply_recommendation_constraints`: greedily take entries of
pairwise distinct detected types, stopping at the limit. -/
def phase1 : List RecEntry → SelState → SelState
  | [], st => st
  | r :: rest, st =>
    if r.id = [] ∨ r.id ∈ st.selectedIds then phase1 rest st
    else if detectProductType r.id ∈ st.seenTypes then phase1 rest st
    else
      let st' : SelState :=
        ⟨st.selected ++ [r], r.id :: st.selectedIds, detectProductType r.id :: st.seenTypes⟩
      if perProductLimit ≤ st'.selected.length then st' else phase1 rest st'

/-- Phase 2: backfill desired complementary types from the global pool. -/
def phase2 (pool : Pool) (sourceType sourceBrand : Slug) :
    List Slug → SelState → SelState
  | [], st => st
  | dt :: rest, st =>
    if dt ∈ st.seenTypes then phase2 pool sourceType sourceBrand rest st
    else
      let rid := pickGlobalCandidate pool sourceType sourceBrand dt st.selectedIds
      if rid = [] then phase2 pool sourceType sourceBrand rest st
      else
        let st' : SelState :=
          ⟨st.selected ++ [mkBackfill rid], rid :: st.selectedIds, dt :: st.seenTypes⟩
        if perProductLimit ≤ st'.selected.length then st'
        else phase2 pool sourceType sourceBrand rest st'

/-- Phase 3: the `while len(selected) < 3` loop over any unseen pool type.  Each
iteration adds exactly one entry, so fuel `perProductLimit` makes the recursion
equal to the unbounded loop. -/
def phase3 (pool : Pool) (sourceType sourceBrand : Slug) : Nat → SelState → SelState
  | 0, st => st
  | fuel + 1, st =>
    if perProductLimit ≤ st.selected.length then st
    else
      let pick := pickGlobalCandidateAny sourceType sourceBrand st.selectedIds st.seenTypes pool
      if pick.1 = [] then st
      else phase3 pool sourceType sourceBrand fuel
        ⟨st.selected ++ [mkBackfill pick.1], pick.1 :: st.selectedIds, pick.2 :: st.seenTypes⟩

/-- `_apply_recommendation_constraints` from api_server.py. -/
def applyConstraints (pool : Pool) (productId : Slug) (recommendations : List RecEntry) :
    List RecEntry :=
  let sourceType := detectProductType productId
  let sourceBrand := extractBrandToken productId
  let ordered := sortByPriority recommendations
  let filtered := ordered.filter (fun r =>
    let rid := trimL r.id
    decide (rid ≠ []) && passesBrandFilter sourceType sourceBrand (detectProductType rid) rid)
  let st1 := phase1 filtered ⟨[], [], []⟩
  let st2 :=
    if st1.selected.length < perProductLimit then
      phase2 pool sourceType sourceBrand
        ((assocFind runtimeComplementaryTypes sourceType).getD []) st1
    else st1
  let st3 := phase3 pool sourceType sourceBrand perProductLimit st2
  st3.selected

/-- `get_recommendations` from api_server.py: explicit match first, then the
first matching category rule, else empty. -/
def getRecommendations (pool : Pool) (productId : Slug)
    (explicitMap : List (Slug × List RecEntry))
    (categoryRules : List (List Slug × List RecEntry)) : List RecEntry :=
  match assocFind explicitMap productId with
  | some recs => applyConstraints pool productId recs
  | none =>
    let pidLower := lowerL productId
    match categoryRules.find? (fun rule => rule.1.any (fun kw => decide (kw <:+: pidLower))) with
    | some rule => applyConstraints pool productId rule.2
    | none => []

/-- A pool is well-formed when every id listed under a type indeed detects as
that type — the invariant `_refresh_global_rec_pool` maintains for
`_GLOBAL_REC_BY_TYPE`. -/
def PoolWF (pool : Pool) : Prop :=
  ∀ e ∈ pool, ∀ rid ∈ e.2, detectProductType rid = e.1

instance (pool : Pool) : Decidable (PoolWF pool) := by
  unfold PoolWF
  infer_instance

/-- Bookkeeping invariant of the selection state: `selected_ids` holds exactly
the ids of `selected` (most recent first) and is duplicate-free. -/
def SelInv (st : SelState) : Prop :=
  st.selectedIds.Nodup ∧ st.selected.map RecEntry.id = st.selectedIds.reverse

/-- Bookkeeping invariant of the selection state: `seen_types` holds exactly
the detected types of `selected` (most recent first) and is duplicate-free. -/
def TypeInv (st : SelState) : Prop :=
  st.seenTypes.Nodup ∧
  st.selected.map (fun r => detectProductType r.id) = st.seenTypes.reverse

/- ===================== validate_recommendations.py ===================== -/

/-- `normalize_text` from validate_recommendations.py:
`(value or "").strip().lower().replace("-", " ")`. -/
def normalizeText (value : Slug) : Slug :=
  (lowerL (trimL value)).map (fun c => if c = '-' then ' ' else c)

/-- Lowercase-alphanumeric character class of the `[a-z0-9]+` token regex. -/
def isTokChar (c : Char) : Bool :=
  (decide ('a' ≤ c) && decide (c ≤ 'z')) || (decide ('0' ≤ c) && decide (c ≤ '9'))

/-- Maximal runs of token characters, the core of `re.findall(r"[a-z0-9]+", s)`. -/
def tokenRuns : Slug → List Slug
  | [] => []
  | c :: rest =>
    if isTokChar c then
      match tokenRuns rest, rest with
      | t :: ts, d :: _ =>
        if isTokChar d then (c :: t) :: ts else [c] :: t :: ts
      | _, _ => [[c]]
    else tokenRuns rest

/-- `slug_tokens` from validate_recommendations.py. -/
def slugTokens (value : Slug) : List Slug := tokenRuns (lowerL value)

/-- `TYPE_RULES` from validate_recommendations.py (ordered; first match wins). -/
def typeRules : List (Slug × List Slug) :=
  [ ("helmet_accessory".data,
      ["visor".data, "face shield".data, "faceshield".data, "shield".data,
       "pinlock".data, "cheek pad".data, "cheek-pad".data, "cheekpad".data,
       "cheekpads".data]),
    ("helmet".data, ["helmet".data]),
    ("jacket".data, ["jacket".data, "coat".data, "parka".data]),
    ("pants".data, ["pant".data, "trouser".data, "bibs".data]),
    ("gloves".data, ["glove".data, "gauntlet".data]),
    ("boots".data, ["boot".data, "shoe".data]),
    ("backpack".data, ["backpack".data, "bag".data, "pack".data, "luggage".data]),
    ("communication".data,
      ["communication".data, "intercom".data, "bluetooth".data, "headset".data,
       "sena".data, "cardo".data, "schuberth-sc2".data]),
    ("tire".data, ["tire".data, "tyre".data, "wheel".data]),
    ("air_filter".data, ["air filter".data, "air-filter".data, "filter".data]),
    ("oil".data, ["oil".data, "lubricant".data, "lube".data, "fork oil".data,
      "transmission oil".data]),
    ("brake".data, ["brake".data, "brake pad".data, "rotor".data]),
    ("chain".data, ["chain".data, "sprocket".data, "degreaser".data,
      "chain lube".data, "chain wax".data]),
    ("protection".data, ["protector".data, "armor".data, "armour".data,
      "chest".data, "back protector".data]) ]

/-- `detect_type` from validate_recommendations.py. -/
def detectType (productSlug : Slug) : Slug :=
  classifyRules typeRules (normalizeText productSlug)

/-- `COMPLEMENTARY_TYPES` from validate_recommendations.py (sets as lists;
only membership is ever used). -/
def complementaryTypes : List (Slug × List Slug) :=
  [ ("pants".data, ["jacket".data, "gloves".data, "boots".data, "protection".data,
      "backpack".data]),
    ("jacket".data, ["pants".data, "gloves".data, "boots".data, "protection".data,
      "helmet".data]),
    ("gloves".data, ["jacket".data, "pants".data, "boots".data, "helmet".data]),
    ("boots".data, ["pants".data, "jacket".data, "gloves".data, "helmet".data]),
    ("helmet".data, ["helmet_accessory".data, "communication".data, "backpack".data,
      "jacket".data, "gloves".data]),
    ("helmet_accessory".data, ["helmet".data, "communication".data, "backpack".data]),
    ("communication".data, ["helmet".data, "backpack".data]),
    ("tire".data, ["brake".data, "chain".data, "oil".data]),
    ("air_filter".data, ["oil".data, "chain".data, "brake".data]),
    ("oil".data, ["air_filter".data, "chain".data, "brake".data]),
    ("chain".data, ["oil".data, "brake".data, "air_filter".data]),
    ("brake".data, ["tire".data, "chain".data, "oil".data]),
    ("backpack".data, ["helmet".data, "jacket".data, "gloves".data]),
    ("protection".data, ["jacket".data, "pants".data, "gloves".data, "boots".data]) ]

/-- `CORE_COMPLEMENTARY_TYPES` from validate_recommendations.py. -/
def coreComplementaryTypes : List Slug :=
  ["pants".data, "jacket".data, "gloves".data, "boots".data, "helmet".data]

/-- `KNOWN_HELMET_BRANDS` from validate_recommendations.py. -/
def knownHelmetBrands : List Slug :=
  ["shoei".data, "arai".data, "agv".data, "hjc".data, "bell".data, "scorpion".data,
   "ls2".data, "icon".data, "sedici".data, "shark".data, "schuberth".data,
   "suomy".data, "simpson".data, "nolan".data, "xlite".data, "caberg".data,
   "klim".data]

/-- `FIT_SENSITIVE_ACCESSORY_TERMS` from validate_recommendations.py. -/
def fitSensitiveAccessoryTerms : List Slug :=
  ["visor".data, "shield".data, "faceshield".data, "face-shield".data,
   "pinlock".data, "cheek".data, "cheekpad".data, "cheek-pad".data,
   "peak".data, "spoiler".data]

/-- `MODEL_STOPWORDS` from validate_recommendations.py. -/
def modelStopwords : List Slug :=
  ["helmet".data, "visor".data, "shield".data, "pinlock".data, "face".data,
   "clear".data, "dark".data, "smoke".data, "tinted".data, "replacement".data,
   "motorcycle".data, "racing".data, "race".data, "edition".data, "with".data,
   "for".data, "the".data, "and".data, "kit".data, "pack".data, "single".data,
   "dual".data, "v".data, "pro".data, "plus".data, "series".data]

/-- `extract_helmet_identity` from validate_recommendations.py: known-brand
tokens and model tokens (length ≥ 2, neither brand nor stopword). -/
def extractHelmetIdentity (slug : Slug) : List Slug × List Slug :=
  let tokens := slugTokens slug
  (tokens.filter (fun t => decide (t ∈ knownHelmetBrands)),
   tokens.filter (fun t => decide (2 ≤ t.length) && decide (t ∉ knownHelmetBrands) &&
     decide (t ∉ modelStopwords)))

/-- `is_fit_sensitive_helmet_accessory` from validate_recommendations.py. -/
def isFitSensitiveHelmetAccessory (slug : Slug) : Bool :=
  fitSensitiveAccessoryTerms.any (fun term => decide (term <:+: lowerL slug))

/-- `parse_bool` from validate_recommendations.py. -/
def parseBool (value : Slug) : Bool :=
  decide (lowerL (trimL value) ∈
    ["true".data, "yes".data, "y".data, "1".data, "verified".data])

/-- One row of the compatibility-proofs CSV (raw field values). -/
structure ProofRow where
  productId : Slug
  recId : Slug
  verified : Slug
  source : Slug
  notes : Slug
deriving DecidableEq

/-- One loaded proof entry: `{"verified": ..., "source": ..., "notes": ...}`. -/
structure ProofInfo where
  verified : Bool
  source : Slug
  notes : Slug
deriving DecidableEq

/-- One row of the recommendations CSV as the validator reads it. -/
structure CsvRow where
  productId : Slug
  recId : Slug
deriving DecidableEq

/-- Validation issues, tagged by kind; `renderIssue` recovers the exact
message strings validate_csv appends. -/
inductive Issue where
  | missingIds (rowNum : Nat)
  | selfRec (rowNum : Nat) (productId : Slug)
  | dupRec (rowNum : Nat) (productId recId : Slug)
  | nonComplementary (rowNum : Nat) (sourceType recType productId recId : Slug)
  | unusualPair (rowNum : Nat) (sourceType recType productId recId : Slug)
  | brandMismatch (rowNum : Nat) (productId recId : Slug)
  | modelSpecificNoMatch (rowNum : Nat) (productId recId : Slug)
  | heuristicPlausible (rowNum : Nat) (productId recId : Slug)
  | missingVerifiedSource (rowNum : Nat) (productId recId : Slug)
  | proofsRowMissingIds (rowNum : Nat)
deriving DecidableEq

def natStr (n : Nat) : Slug := (Nat.repr n).data

def rowPre (n : Nat) : Slug := "Row ".data ++ natStr n

/-- The f-string messages of validate_recommendations.py. -/
def renderIssue : Issue → Slug
  | .missingIds n => rowPre n ++ ": missing Product ID or Recommended Product ID".data
  | .selfRec n pid => rowPre n ++ ": self-recommendation is not allowed (".data ++ pid ++ ")".data
  | .dupRec n pid rid =>
      rowPre n ++ ": duplicate recommendation for '".data ++ pid ++ "' -> '".data ++ rid ++ "'".data
  | .nonComplementary n st rt pid rid =>
      rowPre n ++ ": non-complementary recommendation (".data ++ st ++ " -> ".data ++ rt ++
      ") for '".data ++ pid ++ "' -> '".data ++ rid ++ "'".data
  | .unusualPair n st rt pid rid =>
      rowPre n ++ ": unusual pair (".data ++ st ++ " -> ".data ++ rt ++
      ") for '".data ++ pid ++ "' -> '".data ++ rid ++ "'".data
  | .brandMismatch n pid rid =>
      rowPre n ++ ": helmet brand mismatch for fit-sensitive accessory ('".data ++ pid ++
      "' -> '".data ++ rid ++ "')".data
  | .modelSpecificNoMatch n pid rid =>
      rowPre n ++ ": accessory appears model-specific but no helmet model match was found ('".data ++
      pid ++ "' -> '".data ++ rid ++ "')".data
  | .heuristicPlausible n pid rid =>
      rowPre n ++ ": no source proof entry, but heuristic fit looks plausible ('".data ++
      pid ++ "' -> '".data ++ rid ++ "')".data
  | .missingVerifiedSource n pid rid =>
      rowPre n ++ ": missing verified compatibility source for fit-sensitive accessory ('".data ++
      pid ++ "' -> '".data ++ rid ++ "')".data
  | .proofsRowMissingIds n =>
      "Proofs row ".data ++ natStr n ++ ": missing Product ID or Recommended Product ID".data

/-- `categorize_issue` from validate_recommendations.py. -/
def categorizeIssue (message : Slug) : String :=
  let text := lowerL message
  if "helmet brand mismatch".data <:+: text then "definite mismatch"
  else if "missing verified compatibility source".data <:+: text then "missing proof"
  else if "no source proof entry, but heuristic fit looks plausible".data <:+: text then
    "heuristic uncertain"
  else if "no helmet model match was found".data <:+: text then "heuristic uncertain"
  else "other"

/-- `load_compatibility_proofs` (row loop): last write wins per (source, rec) key. -/
def loadProofsGo : Nat → List ProofRow → List ((Slug × Slug) × ProofInfo) →
    List Issue → List ((Slug × Slug) × ProofInfo) × List Issue
  | _, [], proofs, issues => (proofs, issues)
  | n, row :: rest, proofs, issues =>
    let pid := trimL row.productId
    let rid := trimL row.recId
    if pid = [] ∨ rid = [] then
      loadProofsGo (n + 1) rest proofs (issues ++ [.proofsRowMissingIds n])
    else
      loadProofsGo (n + 1) rest
        (assocUpsert proofs (pid, rid) ⟨parseBool row.verified, trimL row.source, trimL row.notes⟩)
        issues

def loadCompatibilityProofs (rows : List ProofRow) :
    List ((Slug × Slug) × ProofInfo) × List Issue :=
  loadProofsGo 2 rows [] []

/-- `is_category_rule`: the product id starts with `[` and contains `]`. -/
def isCategoryRow (pid : Slug) : Prop :=
  pid.head? = some '[' ∧ ']' ∈ pid

instance (pid : Slug) : Decidable (isCategoryRow pid) := instDecidableAnd

/-- `has_verified_source`: the loaded proof for the pair is truthy-verified and
has a non-empty Compatibility Source. -/
def hasVerifiedSource (proofs : List ((Slug × Slug) × ProofInfo)) (pid rid : Slug) : Bool :=
  match assocFind proofs (pid, rid) with
  | some p => p.verified && decide (trimL p.source ≠ [])
  | none => false

/-- `heuristic_fit_ok = brand_overlap or model_overlap`. -/
def heuristicFitOk (pid rid : Slug) : Prop :=
  ¬ listDisjoint (extractHelmetIdentity pid).1 (extractHelmetIdentity rid).1 ∨
  ¬ listDisjoint (extractHelmetIdentity pid).2 (extractHelmetIdentity rid).2

instance (pid rid : Slug) : Decidable (heuristicFitOk pid rid) := by
  unfold heuristicFitOk
  infer_instance

/-- `src_brands and rec_brands and src_brands.isdisjoint(rec_brands)`. -/
def brandsDisjoint (pid rid : Slug) : Prop :=
  (extractHelmetIdentity pid).1 ≠ [] ∧ (extractHelmetIdentity rid).1 ≠ [] ∧
  listDisjoint (extractHelmetIdentity pid).1 (extractHelmetIdentity rid).1

instance (pid rid : Slug) : Decidable (brandsDisjoint pid rid) := by
  unfold brandsDisjoint
  infer_instance

/-- The guard of validate_csv's fit-sensitive helmet compatibility block. -/
def fitGuard (pid rid : Slug) : Prop :=
  ¬ isCategoryRow pid ∧ detectType pid = "helmet".data ∧
  isFitSensitiveHelmetAccessory rid = true

instance (pid rid : Slug) : Decidable (fitGuard pid rid) := by
  unfold fitGuard
  infer_instance

/-- The strict-mode proof-requirement branch of the fit-sensitive block. -/
def strictProofIssues (strictCompat allowHeuristicFit : Bool)
    (proofs : List ((Slug × Slug) × ProofInfo))
    (rowNum : Nat) (pid rid : Slug) : List Issue × List Issue :=
  if strictCompat = true ∧ hasVerifiedSource proofs pid rid = false then
    if allowHeuristicFit = true ∧ heuristicFitOk pid rid then
      ([], [.heuristicPlausible rowNum pid rid])
    else ([.missingVerifiedSource rowNum pid rid], [])
  else ([], [])

/-- The fit-sensitive helmet compatibility block of validate_csv, for one row
with stripped ids `pid`/`rid`. -/
def fitIssues (strictCompat allowHeuristicFit : Bool)
    (proofs : List ((Slug × Slug) × ProofInfo))
    (rowNum : Nat) (pid rid : Slug) : List Issue × List Issue :=
  if fitGuard pid rid then
    let mismatchErr : List Issue :=
      if brandsDisjoint pid rid then [.brandMismatch rowNum pid rid] else []
    let forWarn : List Issue :=
      if "for".data ∈ slugTokens rid ∧ ¬ heuristicFitOk pid rid then
        [.modelSpecificNoMatch rowNum pid rid]
      else []
    let strictIssues := strictProofIssues strictCompat allowHeuristicFit proofs rowNum pid rid
    (mismatchErr ++ strictIssues.1, forWarn ++ strictIssues.2)
  else ([], [])

/-- The issues (errors, warnings) validate_csv appends for one data row, given
the already-seen recommendation ids of this row's product. -/
def rowIssues (strictCompat allowHeuristicFit : Bool)
    (proofs : List ((Slug × Slug) × ProofInfo))
    (seen : List Slug) (rowNum : Nat) (row : CsvRow) : List Issue × List Issue :=
  let pid := trimL row.productId
  let rid := trimL row.recId
  let isCat := isCategoryRow pid
  if pid = [] ∨ rid = [] then ([.missingIds rowNum], [])
  else
    let selfErr : List Issue := if pid = rid then [.selfRec rowNum pid] else []
    let dupErr : List Issue := if rid ∈ seen then [.dupRec rowNum pid rid] else []
    let sourceType := detectType pid
    let recType := detectType rid
    let allowed := (assocFind complementaryTypes sourceType).getD []
    let typeErr : List Issue :=
      if ¬isCat ∧ sourceType ≠ "unknown".data ∧ recType ≠ "unknown".data ∧
          sourceType = recType ∧ sourceType ∈ coreComplementaryTypes then
        [.nonComplementary rowNum sourceType recType pid rid]
      else []
    let unusualWarn : List Issue :=
      if ¬isCat ∧ sourceType ≠ "unknown".data ∧ recType ≠ "unknown".data ∧
          sourceType ∈ coreComplementaryTypes ∧ allowed ≠ [] ∧ recType ∉ allowed then
        [.unusualPair rowNum sourceType recType pid rid]
      else []
    let fit := fitIssues strictCompat allowHeuristicFit proofs rowNum pid rid
    (selfErr ++ dupErr ++ typeErr ++ fit.1, unusualWarn ++ fit.2)

/-- The data-row loop of `validate_csv`, threading row numbers and the
`seen_by_product` map. -/
def validateRowsGo (strict allowH : Bool) (proofs : List ((Slug × Slug) × ProofInfo)) :
    Nat → List (Slug × List Slug) → List CsvRow → List Issue × List Issue
  | _, _, [] => ([], [])
  | n, seenMap, row :: rest =>
    let pid := trimL row.productId
    let rid := trimL row.recId
    let seen := (assocFind seenMap pid).getD []
    let issues := rowIssues strict allowH proofs seen n row
    let seenMap' :=
      if pid = [] ∨ rid = [] then seenMap
      else assocUpsert seenMap pid (if rid ∈ seen then seen else seen ++ [rid])
    let tailIssues := validateRowsGo strict allowH proofs (n + 1) seenMap' rest
    (issues.1 ++ tailIssues.1, issues.2 ++ tailIssues.2)

/-- `validate_csv` from validate_recommendations.py (header handling aside):
proof-loading issues become errors in strict mode, else warnings. -/
def validateCsv (strict allowH : Bool) (proofRows : List ProofRow)
    (rows : List CsvRow) : List Issue × List Issue :=
  let loaded := loadCompatibilityProofs proofRows
  let body := validateRowsGo strict allowH loaded.1 2 [] rows
  (if strict then loaded.2 ++ body.1 else body.1,
   if strict then body.2 else loaded.2 ++ body.2)

/- ===================== autofix_definite_mismatches.py ===================== -/

/-- `is_definite_mismatch` from autofix_definite_mismatches.py: a helmet source
recommending a fit-sensitive accessory whose known brand set is nonempty and
disjoint from the helmet's nonempty known brand set. -/
def isDefiniteMismatch (productId recId : Slug) : Prop :=
  detectType productId = "helmet".data ∧
  isFitSensitiveHelmetAccessory recId = true ∧
  (extractHelmetIdentity productId).1 ≠ [] ∧
  (extractHelmetIdentity recId).1 ≠ [] ∧
  listDisjoint (extractHelmetIdentity productId).1 (extractHelmetIdentity recId).1

instance (productId recId : Slug) : Decidable (isDefiniteMismatch productId recId) := by
  unfold isDefiniteMismatch
  infer_instance

/-- `score_candidate` from autofix_definite_mismatches.py. -/
def scoreCandidate (sourceProductId originalRecId candidateId : Slug)
    (sourceExistingRecs : List Slug) : Int :=
  if candidateId = sourceProductId then -10000
  else if candidateId ∈ sourceExistingRecs then -9000
  else if isDefiniteMismatch sourceProductId candidateId then -8000
  else
    let sourceType := detectType sourceProductId
    let originalType := detectType originalRecId
    let candidateType := detectType candidateId
    let allowed := (assocFind complementaryTypes sourceType).getD []
    if allowed ≠ [] ∧ candidateType ∉ allowed then -7000
    else
      let srcBrands := (extractHelmetIdentity sourceProductId).1
      let srcModels := (extractHelmetIdentity sourceProductId).2
      let candBrands := (extractHelmetIdentity candidateId).1
      let candModels := (extractHelmetIdentity candidateId).2
      let brandOverlap := ¬ listDisjoint srcBrands candBrands
      let modelOverlap := ¬ listDisjoint srcModels candModels
      (if candidateType = originalType then (80 : Int) else 0)
      + (if candidateType = "helmet_accessory".data then 30 else 0)
      + (if brandOverlap then 70 else 0)
      + (if modelOverlap then 60 else 0)
      + (if isFitSensitiveHelmetAccessory candidateId then 10 else 0)
      + (if ("for".data <:+: lowerL candidateId) ∧ (brandOverlap ∨ modelOverlap) then 10 else 0)

/-- Descending-score order used to rank verified candidates. -/
def scoreDescLE (src orig : Slug) (existing : List Slug) (a b : Slug) : Prop :=
  scoreCandidate src orig b existing ≤ scoreCandidate src orig a existing

instance (src orig : Slug) (existing : List Slug) :
    DecidableRel (scoreDescLE src orig existing) := fun _ _ => Int.decLe _ _

/-- The best/best-score fold over the global candidate pool
(`for candidate in global_candidates: ...` in `pick_replacement`). -/
def bestGlobalStep (src orig : Slug) (existing : List Slug) (acc : Option Slug × Int)
    (c : Slug) : Option Slug × Int :=
  if acc.2 < scoreCandidate src orig c existing then (some c, scoreCandidate src orig c existing)
  else acc

def bestGlobal (src orig : Slug) (existing : List Slug) (globalCands : List Slug) :
    Option Slug × Int :=
  globalCands.foldl (bestGlobalStep src orig existing) (none, -10000)

/-- `pick_replacement` from autofix_definite_mismatches.py: first positive-scoring
verified candidate in descending score order, else the best positive-scoring
global candidate, else `none`. -/
def pickReplacement (src orig : Slug) (existing verified globalCands : List Slug) :
    Option Slug :=
  let ranked := verified.insertionSort (scoreDescLE src orig existing)
  match ranked.find? (fun c => decide (0 < scoreCandidate src orig c existing)) with
  | some c => some c
  | none =>
    let best := bestGlobal src orig existing globalCands
    match best.1 with
    | some b => if b ≠ [] ∧ 0 < best.2 then some b else none
    | none => none

/-- One row of the recommendations CSV as the auto-fixer reads and writes it:
the two live columns plus the untouched remainder of the record. -/
structure DataRow where
  productId : Slug
  recId : Slug
  rest : List (Slug × Slug)
deriving DecidableEq

/-- `product_recs`: per (stripped) product id, the set of its recommended ids. -/
def buildProductRecs (rows : List DataRow) : List (Slug × List Slug) :=
  rows.foldl
    (fun m row =>
      let pid := trimL row.productId
      let rid := trimL row.recId
      if pid = [] ∨ rid = [] then m
      else
        let cur := (assocFind m pid).getD []
        assocUpsert m pid (if rid ∈ cur then cur else cur ++ [rid]))
    []

/-- Lexicographic code-point order on slugs (Python string `<=`). -/
def slugLE : Slug → Slug → Bool
  | [], _ => true
  | _ :: _, [] => false
  | a :: as, b :: bs =>
    if a.val < b.val then true else if b.val < a.val then false else slugLE as bs

def slugLEP (a b : Slug) : Prop := slugLE a b = true

instance : DecidableRel slugLEP := fun a b => instDecidableEqBool (slugLE a b) true

/-- `global_candidates = sorted(global_candidates_set)`. -/
def buildGlobalCandidates (rows : List DataRow) : List Slug :=
  (rows.foldl
    (fun s row =>
      let pid := trimL row.productId
      let rid := trimL row.recId
      if pid = [] ∨ rid = [] then s
      else if rid ∈ s then s else s ++ [rid])
    []).insertionSort slugLEP

/-- `load_verified_proofs` from autofix_definite_mismatches.py. -/
def loadVerifiedProofs (rows : List ProofRow) : List (Slug × List Slug) :=
  rows.foldl
    (fun m row =>
      let pid := trimL row.productId
      let rid := trimL row.recId
      if pid = [] ∨ rid = [] then m
      else if lowerL (trimL row.verified) ∈
          ["yes".data, "y".data, "true".data, "1".data, "verified".data] ∧
          trimL row.source ≠ [] then
        let cur := (assocFind m pid).getD []
        assocUpsert m pid (if rid ∈ cur then cur else cur ++ [rid])
      else m)
    []

/-- The row-fixing loop of autofix `main`, threading the mutable `product_recs`. -/
def fixGo (verifiedBy : List (Slug × List Slug)) (globalCands : List Slug) :
    List (Slug × List Slug) → List DataRow → List DataRow
  | _, [] => []
  | recsState, row :: rest =>
    let pid := trimL row.productId
    let rid := trimL row.recId
    if pid = [] ∨ rid = [] then row :: fixGo verifiedBy globalCands recsState rest
    else if isCategoryRow pid then row :: fixGo verifiedBy globalCands recsState rest
    else if ¬ isDefiniteMismatch pid rid then row :: fixGo verifiedBy globalCands recsState rest
    else
      let sourceExisting := ((assocFind recsState pid).getD []).filter (fun y => decide (y ≠ rid))
      match pickReplacement pid rid sourceExisting ((assocFind verifiedBy pid).getD [])
          globalCands with
      | none => row :: fixGo verifiedBy globalCands recsState rest
      | some repl =>
        let afterDiscard := ((assocFind recsState pid).getD []).filter (fun y => decide (y ≠ rid))
        let recsState' := assocUpsert recsState pid
          (if repl ∈ afterDiscard then afterDiscard else afterDiscard ++ [repl])
        { row with recId := repl } :: fixGo verifiedBy globalCands recsState' rest

/-- The whole row transformation of autofix `main` (I/O and reporting aside). -/
def autofixRows (rows : List DataRow) (proofRows : List ProofRow) : List DataRow :=
  fixGo (loadVerifiedProofs proofRows) (buildGlobalCandidates rows) (buildProductRecs rows) rows

/- ===================== cart aggregation (/api/fbt) ===================== -/

/-- Accumulated state per recommended id in `get_frequently_bought_together`. -/
structure AggInfo where
  count : Nat
  label : Slug
  priority : Slug
deriving DecidableEq

/-- In-place update of one key of the `rec_info` dict. -/
def updateAssoc (l : List (Slug × AggInfo)) (k : Slug) (f : AggInfo → AggInfo) :
    List (Slug × AggInfo) :=
  match l with
  | [] => []
  | (k', v) :: rest => if k' = k then (k', f v) :: rest else (k', v) :: updateAssoc rest k f

/-- Processing of one resolved recommendation entry by the `/api/fbt` loop:
skip ids already in the cart; otherwise create or update its `rec_info` slot
(count increment, first-nonempty label, best-rank nonempty priority). -/
def fbtStep (cartIds : List Slug) (info : List (Slug × AggInfo)) (r : RecEntry) :
    List (Slug × AggInfo) :=
  if r.id ∈ cartIds then info
  else
    match assocFind info r.id with
    | none => info ++ [(r.id, ⟨1, r.label, r.priority⟩)]
    | some _ =>
      updateAssoc info r.id (fun i =>
        ⟨i.count + 1,
         if r.label ≠ [] ∧ i.label = [] then r.label else i.label,
         if r.priority ≠ [] ∧ (i.priority = [] ∨ priorityRank r.priority < priorityRank i.priority)
         then r.priority else i.priority⟩)

/-- The accumulation loop of `get_frequently_bought_together`: every cart item's
resolved recommendations are folded into `rec_info` in order. -/
def fbtInfo (cartIds : List Slug) (resolve : Slug → List RecEntry) :
    List (Slug × AggInfo) :=
  cartIds.foldl (fun acc cid => (resolve cid).foldl (fbtStep cartIds) acc) []

/-- The output sort key `(-count, priority_rank)` of `/api/fbt`, as a relation. -/
def aggLE (a b : Slug × AggInfo) : Prop :=
  b.2.count < a.2.count ∨ (a.2.count = b.2.count ∧ priorityRank a.2.priority ≤ priorityRank b.2.priority)

instance : DecidableRel aggLE := fun a b => by
  unfold aggLE
  infer_instance

instance : IsTotal (Slug × AggInfo) aggLE := by
  constructor
  intro a b
  unfold aggLE
  omega

instance : IsTrans (Slug × AggInfo) aggLE := by
  constructor
  intro a b c hab hbc
  unfold aggLE at *
  omega

/-- The ranked output list of `get_frequently_bought_together` (before the
final field projection, which preserves order). -/
def fbtRanked (cartIds : List Slug) (resolve : Slug → List RecEntry) :
    List (Slug × AggInfo) :=
  (fbtInfo cartIds resolve).insertionSort aggLE

/- ===================== helper lemmas ===================== -/

theorem dropWhile_head_not {p : Char → Bool} {l t : List Char} {c : Char}
    (h : l.dropWhile p = c :: t) : p c = false := by
  induction l with
  | nil => simp [List.dropWhile] at h
  | cons a as ih =>
    rw [List.dropWhile_cons] at h
    by_cases hp : p a = true
    · rw [if_pos hp] at h
      exact ih h
    · rw [if_neg hp] at h
      cases h
      simpa using hp

theorem dropWhile_eq_self_of_head {p : Char → Bool} {l : List Char}
    (h : ∀ c t, l = c :: t → p c = false) : l.dropWhile p = l := by
  cases l with
  | nil => rfl
  | cons c t =>
    rw [List.dropWhile_cons, if_neg]
    simp [h c t rfl]


theorem trimL_trimL (l : Slug) : trimL (trimL l) = trimL l := by
  unfold trimL
  set A := l.dropWhile Char.isWhitespace with hA
  cases hB : A.reverse.dropWhile Char.isWhitespace with
  | nil => simp
  | cons b B' =>
    have hb : Char.isWhitespace b = false := dropWhile_head_not hB
    have hBsuffix : (b :: B') <:+ A.reverse := by
      rw [← hB]
      exact List.dropWhile_suffix _
    have hAne : A ≠ [] := by
      intro hnil
      rw [hnil] at hB
      simp [List.dropWhile] at hB
    obtain ⟨a, A', hAeq⟩ : ∃ a A', A = a :: A' := List.exists_cons_of_ne_nil hAne
    have ha : Char.isWhitespace a = false := by
      apply dropWhile_head_not (p := Char.isWhitespace) (l := l)
      rw [← hA, hAeq]
    have hlast : (b :: B').getLast? = some a := by
      obtain ⟨t, ht⟩ := hBsuffix
      have h1 : A.reverse.getLast? = some a := by
        rw [List.getLast?_reverse, hAeq]
        rfl
      rw [← ht] at h1
      rwa [List.getLast?_append_of_ne_nil _ (List.cons_ne_nil b B')] at h1
    have hhead : (b :: B').reverse.head? = some a := by
      rw [List.head?_reverse]
      exact hlast
    have hstep1 : (b :: B').reverse.dropWhile Char.isWhitespace = (b :: B').reverse := by
      apply dropWhile_eq_self_of_head
      intro c t hct
      rw [hct] at hhead
      simp at hhead
      rw [hhead]
      exact ha
    rw [hstep1, List.reverse_reverse, List.dropWhile_cons, if_neg (by simp [hb])]

theorem normalizeSlugText_trimL (s : Slug) :
    normalizeSlugText (trimL s) = normalizeSlugText s := by
  unfold normalizeSlugText
  rw [trimL_trimL]

theorem detectProductType_trimL (s : Slug) :
    detectProductType (trimL s) = detectProductType s := by
  unfold detectProductType
  rw [normalizeSlugText_trimL]

theorem extractBrandToken_trimL (s : Slug) :
    extractBrandToken (trimL s) = extractBrandToken s := by
  unfold extractBrandToken
  rw [normalizeSlugText_trimL]

theorem classifyRules_eq_find (rules : List (Slug × List Slug)) (text : Slug) :
    classifyRules rules text =
      ((rules.find? (fun rule => rule.2.any (fun kw => decide (kw <:+: text)))).map
        Prod.fst).getD "unknown".data := by
  induction rules with
  | nil => rfl
  | cons r rest ih =>
    obtain ⟨t, kws⟩ := r
    by_cases h : (kws.any (fun kw => decide (kw <:+: text))) = true
    · simp [classifyRules, h, List.find?_cons_of_pos]
    · rw [classifyRules, if_neg (by simp [h]), ih, List.find?_cons_of_neg]
      simpa using h

theorem classifyRules_first {t : Slug} {kws : List Slug} {rest : List (Slug × List Slug)}
    {text kw : Slug} (hkw : kw ∈ kws) (h : kw <:+: text) :
    classifyRules ((t, kws) :: rest) text = t := by
  rw [classifyRules, if_pos]
  exact List.any_eq_true.mpr ⟨kw, hkw, by simpa using h⟩

theorem classifyRules_mem_keywords {rules : List (Slug × List Slug)} {text t : Slug}
    (hres : classifyRules rules text = t) (hne : t ≠ "unknown".data) :
    ∃ rule ∈ rules, rule.1 = t ∧ ∃ kw ∈ rule.2, kw <:+: text := by
  induction rules with
  | nil => exact absurd hres.symm hne
  | cons r rest ih =>
    obtain ⟨t', kws⟩ := r
    by_cases h : (kws.any (fun kw => decide (kw <:+: text))) = true
    · rw [classifyRules, if_pos h] at hres
      obtain ⟨kw, hkw, hinf⟩ := List.any_eq_true.mp h
      exact ⟨(t', kws), List.mem_cons_self _ _, hres, kw, hkw, by simpa using hinf⟩
    · rw [classifyRules, if_neg (by simp [h])] at hres
      obtain ⟨rule, hmem, h1, h2⟩ := ih hres
      exact ⟨rule, List.mem_cons_of_mem _ hmem, h1, h2⟩

theorem splitOnChar_ne_nil (sep : Char) (l : Slug) : splitOnChar sep l ≠ [] := by
  cases l with
  | nil => simp [splitOnChar]
  | cons c rest =>
    rw [splitOnChar]
    cases h : splitOnChar sep rest with
    | nil => simp
    | cons t ts =>
      by_cases hc : c = sep
      · simp [hc]
      · simp [hc]

theorem splitOnChar_mem {sep c : Char} {l : Slug} (hc : c ∈ l) (hne : c ≠ sep) :
    ∃ t ∈ splitOnChar sep l, c ∈ t := by
  induction l with
  | nil => simp at hc
  | cons a as ih =>
    cases h : splitOnChar sep as with
    | nil => exact absurd h (splitOnChar_ne_nil sep as)
    | cons t ts =>
      rcases List.mem_cons.mp hc with rfl | hmem
      · simp only [splitOnChar, h]
        rw [if_neg hne]
        exact ⟨c :: t, List.mem_cons_self _ _, List.mem_cons_self _ _⟩
      · obtain ⟨t', ht'mem, hct'⟩ := ih hmem
        rw [h] at ht'mem
        simp only [splitOnChar, h]
        by_cases ha : a = sep
        · rw [if_pos ha]
          exact ⟨t', List.mem_cons_of_mem _ ht'mem, hct'⟩
        · rw [if_neg ha]
          rcases List.mem_cons.mp ht'mem with rfl | hts
          · exact ⟨a :: t', List.mem_cons_self _ _, List.mem_cons_of_mem _ hct'⟩
          · exact ⟨t', List.mem_cons_of_mem _ hts, hct'⟩

theorem extractBrandToken_ne_nil {s : Slug}
    (h : ∃ c ∈ normalizeSlugText s, c.isAlpha = true ∧ c.isDigit = false ∧ c ≠ '-') :
    extractBrandToken s ≠ [] := by
  obtain ⟨c, hcmem, halpha, hdigit, hdash⟩ := h
  obtain ⟨t, htmem, hct⟩ := splitOnChar_mem hcmem hdash
  simp only [extractBrandToken]
  have hpred : (!pyIsDigit t && t.any Char.isAlpha) = true := by
    have hany : t.any Char.isAlpha = true := List.any_eq_true.mpr ⟨c, hct, halpha⟩
    have hnotdig : pyIsDigit t = false := by
      unfold pyIsDigit
      have : ¬ (t.all Char.isDigit = true) := by
        intro hall
        have := List.all_eq_true.mp hall c hct
        rw [hdigit] at this
        exact Bool.false_ne_true this
      simp [Bool.eq_false_iff.mpr this]
    rw [hnotdig, hany]
    rfl
  have hfilter : t ∈ (splitOnChar '-' (normalizeSlugText s)).filter (fun t => !t.isEmpty) := by
    rw [List.mem_filter]
    refine ⟨htmem, ?_⟩
    have : t ≠ [] := List.ne_nil_of_mem hct
    simpa [List.isEmpty_iff]
  have hsome : (((splitOnChar '-' (normalizeSlugText s)).filter (fun t => !t.isEmpty)).find?
      (fun t => !pyIsDigit t && t.any Char.isAlpha)).isSome = true :=
    List.find?_isSome.mpr ⟨t, hfilter, hpred⟩
  obtain ⟨t₀, ht₀⟩ := Option.isSome_iff_exists.mp hsome
  simp only [ht₀]
  have hp := List.find?_some ht₀
  have : t₀.any Char.isAlpha = true := by
    cases (Bool.and_eq_true _ _).mp hp with
    | intro h1 h2 => exact h2
  obtain ⟨c₀, hc₀, _⟩ := List.any_eq_true.mp this
  simpa using List.ne_nil_of_mem hc₀

theorem exists_alpha_of_kw {text kw : Slug} (hinf : kw <:+: text)
    (c : Char) (hc : c ∈ kw) (ha : c.isAlpha = true) (hd : c.isDigit = false)
    (hns : c ≠ '-') :
    ∃ c ∈ text, c.isAlpha = true ∧ c.isDigit = false ∧ c ≠ '-' :=
  ⟨c, List.IsInfix.mem hc hinf, ha, hd, hns⟩

theorem brand_ne_nil_of_recJPG {rid : Slug}
    (h : recJPG (detectProductType rid) = true) : extractBrandToken rid ≠ [] := by
  have h3 : detectProductType rid = "jacket".data ∨ detectProductType rid = "pants".data ∨
      detectProductType rid = "gloves".data := by
    unfold recJPG at h
    have := by simpa using h
    tauto
  apply extractBrandToken_ne_nil
  rcases h3 with ht | ht | ht <;>
  · obtain ⟨rule, hrule, heq, kw, hkw, hinf⟩ := classifyRules_mem_keywords ht (by decide)
    simp only [productTypeRules] at hrule
    fin_cases hrule <;> simp only at heq <;> first
      | (exact absurd heq (by decide))
      | (fin_cases hkw <;> first
          | exact exists_alpha_of_kw hinf 'j' (by decide) (by decide) (by decide) (by decide)
          | exact exists_alpha_of_kw hinf 'c' (by decide) (by decide) (by decide) (by decide)
          | exact exists_alpha_of_kw hinf 'p' (by decide) (by decide) (by decide) (by decide)
          | exact exists_alpha_of_kw hinf 't' (by decide) (by decide) (by decide) (by decide)
          | exact exists_alpha_of_kw hinf 'b' (by decide) (by decide) (by decide) (by decide)
          | exact exists_alpha_of_kw hinf 'g' (by decide) (by decide) (by decide) (by decide))

/-- C8: both type classifiers are total deterministic first-match scans of their
ordered rule tables: the result is the first type any of whose keywords is a
substring of the normalized identifier, `unknown` if none matches; in
particular any identifier containing the helmet_accessory keyword `shield` or
`pinlock` classifies as `helmet_accessory`, even if it also contains `helmet`. -/
theorem C8_type_classifier_first_match (s : Slug) :
    detectType s =
      ((typeRules.find? (fun rule =>
        rule.2.any (fun kw => decide (kw <:+: normalizeText s)))).map Prod.fst).getD
        "unknown".data
    ∧ detectProductType s =
      ((productTypeRules.find? (fun rule =>
        rule.2.any (fun kw => decide (kw <:+: normalizeSlugText s)))).map Prod.fst).getD
        "unknown".data
    ∧ ("shield".data <:+: normalizeText s → detectType s = "helmet_accessory".data)
    ∧ ("pinlock".data <:+: normalizeText s → detectType s = "helmet_accessory".data)
    ∧ ("shield".data <:+: normalizeSlugText s →
        detectProductType s = "helmet_accessory".data)
    ∧ ("pinlock".data <:+: normalizeSlugText s →
        detectProductType s = "helmet_accessory".data) := by
  refine ⟨classifyRules_eq_find _ _, classifyRules_eq_find _ _, ?_, ?_, ?_, ?_⟩
  · intro h
    unfold detectType typeRules
    exact classifyRules_first (by decide) h
  · intro h
    unfold detectType typeRules
    exact classifyRules_first (by decide) h
  · intro h
    unfold detectProductType productTypeRules
    exact classifyRules_first (by decide) h
  · intro h
    unfold detectProductType productTypeRules
    exact classifyRules_first (by decide) h

theorem C8_type_classifier_first_match_witness :
    ("shield".data <:+: normalizeText "pinlock-ready-shield-for-x-helmet".data)
    ∧ detectType "pinlock-ready-shield-for-x-helmet".data = "helmet_accessory".data :=
  ⟨by decide, (C8_type_classifier_first_match "pinlock-ready-shield-for-x-helmet".data).2.2.1
    (by decide)⟩

/-- C4: a product id that is a key of the explicit map resolves through the
explicit list (after constraints), never through a category rule — even if some
category keyword substring-matches the lowercased id; when the id is in neither
structure the result is the empty list. -/
theorem C4_explicit_beats_category (pool : Pool) (productId : Slug)
    (explicitMap : List (Slug × List RecEntry))
    (categoryRules : List (List Slug × List RecEntry)) :
    (∀ recs, assocFind explicitMap productId = some recs →
        getRecommendations pool productId explicitMap categoryRules =
          applyConstraints pool productId recs)
    ∧ (assocFind explicitMap productId = none →
        (∀ rule ∈ categoryRules, ∀ kw ∈ rule.1, ¬ kw <:+: lowerL productId) →
        getRecommendations pool productId explicitMap categoryRules = []) := by
  constructor
  · intro recs h
    unfold getRecommendations
    rw [h]
  · intro hnone hnomatch
    unfold getRecommendations
    rw [hnone]
    have hfind : categoryRules.find?
        (fun rule => rule.1.any (fun kw => decide (kw <:+: lowerL productId))) = none := by
      rw [List.find?_eq_none]
      intro rule hrule
      simp only [Bool.not_eq_true, List.any_eq_false, decide_eq_true_eq]
      intro kw hkw
      simpa using hnomatch rule hrule kw hkw
    simp only [hfind]

theorem C4_explicit_beats_category_witness :
    assocFind [("alpha-helmet".data, [RecEntry.mk "beta-gloves".data [] []])]
        "alpha-helmet".data = some [RecEntry.mk "beta-gloves".data [] []]
    ∧ getRecommendations [] "alpha-helmet".data
        [("alpha-helmet".data, [RecEntry.mk "beta-gloves".data [] []])]
        [(["helmet".data], [RecEntry.mk "gamma-boots".data [] []])]
      = applyConstraints [] "alpha-helmet".data [RecEntry.mk "beta-gloves".data [] []] :=
  ⟨by decide, (C4_explicit_beats_category _ _ _ _).1 _ (by decide)⟩

theorem mem_ite_singleton {x y : Issue} {c : Prop} [Decidable c] :
    x ∈ (if c then [y] else ([] : List Issue)) ↔ c ∧ x = y := by
  split_ifs with h <;> simp [h]

theorem infix_append_left_of (x : Slug) {m : Slug} (r : Slug) (h : x <:+: m) :
    x <:+: m ++ r :=
  h.trans (List.prefix_append m r).isInfix

theorem infix_append_right_of (x : Slug) (a : Slug) {m : Slug} (h : x <:+: m) :
    x <:+: a ++ m :=
  h.trans (List.suffix_append a m).isInfix

theorem categorize_brandMismatch (n : Nat) (pid rid : Slug) :
    categorizeIssue (renderIssue (Issue.brandMismatch n pid rid)) = "definite mismatch" := by
  simp only [categorizeIssue, renderIssue]
  rw [if_pos]
  simp only [lowerL, List.map_append]
  apply infix_append_left_of
  apply infix_append_left_of
  apply infix_append_left_of
  apply infix_append_left_of
  apply infix_append_right_of
  show "helmet brand mismatch".data <:+:
    (": helmet brand mismatch for fit-sensitive accessory ('".data.map Char.toLower)
  decide

theorem strictProofIssues_mem_missing (strict allowH : Bool)
    (proofs : List ((Slug × Slug) × ProofInfo)) (n : Nat) (pid rid : Slug) :
    Issue.missingVerifiedSource n pid rid ∈ (strictProofIssues strict allowH proofs n pid rid).1
      ↔ strict = true ∧ hasVerifiedSource proofs pid rid = false ∧
        ¬ (allowH = true ∧ heuristicFitOk pid rid) := by
  unfold strictProofIssues
  split_ifs with h1 h2 <;> simp_all

theorem strictProofIssues_mem_heur (strict allowH : Bool)
    (proofs : List ((Slug × Slug) × ProofInfo)) (n : Nat) (pid rid : Slug) :
    Issue.heuristicPlausible n pid rid ∈ (strictProofIssues strict allowH proofs n pid rid).2
      ↔ strict = true ∧ hasVerifiedSource proofs pid rid = false ∧
        allowH = true ∧ heuristicFitOk pid rid := by
  unfold strictProofIssues
  split_ifs with h1 h2 <;> simp_all

theorem fitIssues_mem_brandMismatch (strict allowH : Bool)
    (proofs : List ((Slug × Slug) × ProofInfo)) (n : Nat) (pid rid : Slug) :
    Issue.brandMismatch n pid rid ∈ (fitIssues strict allowH proofs n pid rid).1
      ↔ fitGuard pid rid ∧ brandsDisjoint pid rid := by
  rcases hs : (strictProofIssues strict allowH proofs n pid rid).1 with _ | ⟨i, tl⟩
  · by_cases hg : fitGuard pid rid
    · simp [fitIssues, hg, hs, mem_ite_singleton]
    · simp [fitIssues, hg]
  · have : i = Issue.missingVerifiedSource n pid rid ∧ tl = [] := by
      unfold strictProofIssues at hs
      split_ifs at hs
      all_goals simp_all
    obtain ⟨rfl, rfl⟩ := this
    by_cases hg : fitGuard pid rid
    · simp [fitIssues, hg, hs, mem_ite_singleton]
    · simp [fitIssues, hg]

theorem fitIssues_mem_missing (strict allowH : Bool)
    (proofs : List ((Slug × Slug) × ProofInfo)) (n : Nat) (pid rid : Slug) :
    Issue.missingVerifiedSource n pid rid ∈ (fitIssues strict allowH proofs n pid rid).1
      ↔ fitGuard pid rid ∧ strict = true ∧ hasVerifiedSource proofs pid rid = false ∧
        ¬ (allowH = true ∧ heuristicFitOk pid rid) := by
  by_cases hg : fitGuard pid rid
  · simp [fitIssues, hg, mem_ite_singleton, strictProofIssues_mem_missing]
  · simp [fitIssues, hg]

theorem fitIssues_mem_heur (strict allowH : Bool)
    (proofs : List ((Slug × Slug) × ProofInfo)) (n : Nat) (pid rid : Slug) :
    Issue.heuristicPlausible n pid rid ∈ (fitIssues strict allowH proofs n pid rid).2
      ↔ fitGuard pid rid ∧ strict = true ∧ hasVerifiedSource proofs pid rid = false ∧
        allowH = true ∧ heuristicFitOk pid rid := by
  by_cases hg : fitGuard pid rid
  · simp [fitIssues, hg, mem_ite_singleton, strictProofIssues_mem_heur]
  · simp [fitIssues, hg]

/-- C3: for every non-category rule row, validate_csv appends the
`helmet brand mismatch` error (which `categorize_issue` classifies as
`definite mismatch`) exactly when the source's detected type is helmet, the
recommended id contains a fit-sensitive accessory term, and the extracted known
brand sets of source and recommendation are both non-empty and disjoint. -/
theorem C3_brand_mismatch_error (strict allowH : Bool)
    (proofs : List ((Slug × Slug) × ProofInfo)) (seen : List Slug) (n : Nat) (row : CsvRow) :
    (Issue.brandMismatch n (trimL row.productId) (trimL row.recId) ∈
        (rowIssues strict allowH proofs seen n row).1
      ↔ ¬ isCategoryRow (trimL row.productId)
        ∧ detectType (trimL row.productId) = "helmet".data
        ∧ isFitSensitiveHelmetAccessory (trimL row.recId) = true
        ∧ (extractHelmetIdentity (trimL row.productId)).1 ≠ []
        ∧ (extractHelmetIdentity (trimL row.recId)).1 ≠ []
        ∧ listDisjoint (extractHelmetIdentity (trimL row.productId)).1
            (extractHelmetIdentity (trimL row.recId)).1)
    ∧ categorizeIssue (renderIssue (Issue.brandMismatch n (trimL row.productId)
        (trimL row.recId))) = "definite mismatch" := by
  refine ⟨?_, categorize_brandMismatch n _ _⟩
  by_cases hempty : trimL row.productId = [] ∨ trimL row.recId = []
  · simp only [rowIssues, if_pos hempty]
    constructor
    · intro hmem
      simp at hmem
    · rintro ⟨-, hdet, hsens, -⟩
      rcases hempty with h | h
      · rw [h] at hdet
        exact absurd hdet (by decide)
      · rw [h] at hsens
        exact absurd hsens (by decide)
  · simp only [rowIssues, if_neg hempty]
    rw [List.mem_append, List.mem_append, List.mem_append]
    simp only [mem_ite_singleton]
    rw [fitIssues_mem_brandMismatch]
    unfold fitGuard brandsDisjoint
    simp
    tauto

/-- C6: in strict mode, for a non-category row with helmet source and
fit-sensitive recommendation, validate_csv emits the
`missing verified compatibility source` error exactly when no loaded proof for
the pair is truthy-verified with a non-empty source, except that with
`allow_heuristic_fit` enabled and brand/model overlap it emits the
`heuristic fit looks plausible` warning instead. -/
theorem C6_strict_missing_proof (allowH : Bool) (proofRows : List ProofRow)
    (seen : List Slug) (n : Nat) (row : CsvRow)
    (hcat : ¬ isCategoryRow (trimL row.productId))
    (hhel : detectType (trimL row.productId) = "helmet".data)
    (hfit : isFitSensitiveHelmetAccessory (trimL row.recId) = true) :
    (Issue.missingVerifiedSource n (trimL row.productId) (trimL row.recId) ∈
        (rowIssues true allowH (loadCompatibilityProofs proofRows).1 seen n row).1
      ↔ hasVerifiedSource (loadCompatibilityProofs proofRows).1 (trimL row.productId)
          (trimL row.recId) = false ∧
        ¬ (allowH = true ∧ heuristicFitOk (trimL row.productId) (trimL row.recId)))
    ∧ (hasVerifiedSource (loadCompatibilityProofs proofRows).1 (trimL row.productId)
          (trimL row.recId) = false →
       allowH = true → heuristicFitOk (trimL row.productId) (trimL row.recId) →
       Issue.heuristicPlausible n (trimL row.productId) (trimL row.recId) ∈
         (rowIssues true allowH (loadCompatibilityProofs proofRows).1 seen n row).2) := by
  have hpid : trimL row.productId ≠ [] := by
    intro h
    rw [h] at hhel
    exact absurd hhel (by decide)
  have hrid : trimL row.recId ≠ [] := by
    intro h
    rw [h] at hfit
    exact absurd hfit (by decide)
  have hempty : ¬ (trimL row.productId = [] ∨ trimL row.recId = []) := by
    tauto
  have hguard : fitGuard (trimL row.productId) (trimL row.recId) := ⟨hcat, hhel, hfit⟩
  constructor
  · simp only [rowIssues, if_neg hempty]
    rw [List.mem_append, List.mem_append, List.mem_append]
    simp only [mem_ite_singleton]
    rw [fitIssues_mem_missing]
    simp [hguard]
  · intro h1 h2 h3
    simp only [rowIssues, if_neg hempty]
    rw [List.mem_append]
    right
    rw [fitIssues_mem_heur]
    exact ⟨hguard, rfl, h1, h2, h3⟩

theorem C3_brand_mismatch_error_witness :
    Issue.brandMismatch 2 (trimL "agv-pista-gp-rr-mono-carbon-helmet".data)
        (trimL "shoei-x15-face-shield".data) ∈
      (rowIssues true false [] [] 2
        ⟨"agv-pista-gp-rr-mono-carbon-helmet".data, "shoei-x15-face-shield".data⟩).1 :=
  (C3_brand_mismatch_error true false [] [] 2 _).1.mpr (by decide)

theorem C6_strict_missing_proof_witness :
    (¬ isCategoryRow (trimL "agv-pista-gp-rr-mono-carbon-helmet".data))
    ∧ Issue.missingVerifiedSource 2 (trimL "agv-pista-gp-rr-mono-carbon-helmet".data)
        (trimL "shoei-x15-face-shield".data) ∈
      (rowIssues true false (loadCompatibilityProofs []).1 [] 2
        ⟨"agv-pista-gp-rr-mono-carbon-helmet".data, "shoei-x15-face-shield".data⟩).1 :=
  ⟨by decide,
   (C6_strict_missing_proof false [] [] 2 _ (by decide) (by decide) (by decide)).1.mpr
     (by decide)⟩

theorem scoreCandidate_pos_props {src orig c : Slug} {existing : List Slug}
    (h : 0 < scoreCandidate src orig c existing) :
    c ≠ src ∧ c ∉ existing ∧ ¬ isDefiniteMismatch src c ∧
    (∀ allowed, assocFind complementaryTypes (detectType src) = some allowed →
      allowed ≠ [] → detectType c ∈ allowed) := by
  have h1 : c ≠ src := by
    intro he
    unfold scoreCandidate at h
    rw [if_pos he] at h
    omega
  have h2 : c ∉ existing := by
    intro he
    unfold scoreCandidate at h
    rw [if_neg h1, if_pos he] at h
    omega
  have h3 : ¬ isDefiniteMismatch src c := by
    intro he
    unfold scoreCandidate at h
    rw [if_neg h1, if_neg h2, if_pos he] at h
    omega
  refine ⟨h1, h2, h3, ?_⟩
  intro allowed hall hne
  by_contra hc
  unfold scoreCandidate at h
  rw [if_neg h1, if_neg h2, if_neg h3] at h
  simp only [hall, Option.getD_some] at h
  rw [if_pos ⟨hne, hc⟩] at h
  omega

theorem bestGlobal_fold_spec (src orig : Slug) (existing : List Slug) :
    ∀ (l : List Slug) (acc : Option Slug × Int),
      (∀ b, acc.1 = some b → acc.2 = scoreCandidate src orig b existing) →
      ∀ b, (l.foldl (bestGlobalStep src orig existing) acc).1 = some b →
        (l.foldl (bestGlobalStep src orig existing) acc).2 =
          scoreCandidate src orig b existing ∧ (b ∈ l ∨ acc.1 = some b) := by
  intro l
  induction l with
  | nil =>
    intro acc hacc b hb
    exact ⟨hacc b hb, Or.inr hb⟩
  | cons d ds ih =>
    intro acc hacc b hb
    rw [List.foldl_cons] at hb ⊢
    by_cases hlt : acc.2 < scoreCandidate src orig d existing
    · have hstep : bestGlobalStep src orig existing acc d =
          (some d, scoreCandidate src orig d existing) := by
        unfold bestGlobalStep
        rw [if_pos hlt]
      rw [hstep] at hb ⊢
      obtain ⟨hsc, hmem⟩ := ih _ (by rintro b' hb'; cases hb'; rfl) b hb
      refine ⟨hsc, ?_⟩
      rcases hmem with hm | hm
      · exact Or.inl (List.mem_cons_of_mem _ hm)
      · cases hm
        exact Or.inl (List.mem_cons_self _ _)
    · have hstep : bestGlobalStep src orig existing acc d = acc := by
        unfold bestGlobalStep
        rw [if_neg hlt]
      rw [hstep] at hb ⊢
      obtain ⟨hsc, hmem⟩ := ih _ hacc b hb
      refine ⟨hsc, ?_⟩
      rcases hmem with hm | hm
      · exact Or.inl (List.mem_cons_of_mem _ hm)
      · exact Or.inr hm

theorem bestGlobal_some (src orig : Slug) (existing globalCands : List Slug) (b : Slug)
    (h : (bestGlobal src orig existing globalCands).1 = some b) :
    (bestGlobal src orig existing globalCands).2 = scoreCandidate src orig b existing ∧
    b ∈ globalCands := by
  obtain ⟨hsc, hmem⟩ := bestGlobal_fold_spec src orig existing globalCands (none, -10000)
    (by rintro b' hb'; cases hb') b h
  refine ⟨hsc, ?_⟩
  rcases hmem with hm | hm
  · exact hm
  · cases hm

theorem pickReplacement_some_pos {src orig c : Slug} {existing verified globalCands : List Slug}
    (hc : pickReplacement src orig existing verified globalCands = some c) :
    0 < scoreCandidate src orig c existing := by
  unfold pickReplacement at hc
  cases hf : (verified.insertionSort (scoreDescLE src orig existing)).find?
      (fun c => decide (0 < scoreCandidate src orig c existing)) with
  | some d =>
    simp only [hf] at hc
    cases hc
    simpa using List.find?_some hf
  | none =>
    simp only [hf] at hc
    cases hbest : (bestGlobal src orig existing globalCands).1 with
    | some b =>
      simp only [hbest] at hc
      by_cases hcond : b ≠ [] ∧ 0 < (bestGlobal src orig existing globalCands).2
      · rw [if_pos hcond] at hc
        cases hc
        have hsc := (bestGlobal_some src orig existing globalCands c hbest).1
        rw [hsc] at hcond
        exact hcond.2
      · rw [if_neg hcond] at hc
        cases hc
    | none =>
      simp only [hbest] at hc
      cases hc

/-- C5: pick_replacement returns a candidate only with strictly positive score,
prefers positive-scoring verified proof-backed candidates over the global pool,
and hence never returns the source id, an already-recommended id, a definite
mismatch, or a type outside the source type's allowed-complement set; when no
candidate scores positive it returns none (the row is then reported
unresolved). -/
theorem C5_pick_replacement (src orig : Slug) (existing verified globalCands : List Slug) :
    (∀ c, pickReplacement src orig existing verified globalCands = some c →
      0 < scoreCandidate src orig c existing
      ∧ c ≠ src ∧ c ∉ existing ∧ ¬ isDefiniteMismatch src c
      ∧ (∀ allowed, assocFind complementaryTypes (detectType src) = some allowed →
          allowed ≠ [] → detectType c ∈ allowed))
    ∧ ((∃ v ∈ verified, 0 < scoreCandidate src orig v existing) →
        ∃ c ∈ verified, pickReplacement src orig existing verified globalCands = some c)
    ∧ ((∀ c ∈ verified, scoreCandidate src orig c existing ≤ 0) →
       (∀ c ∈ globalCands, scoreCandidate src orig c existing ≤ 0) →
       pickReplacement src orig existing verified globalCands = none) := by
  refine ⟨?_, ?_, ?_⟩
  · intro c hc
    have hpos : 0 < scoreCandidate src orig c existing := pickReplacement_some_pos hc
    obtain ⟨a1, a2, a3, a4⟩ := scoreCandidate_pos_props hpos
    exact ⟨hpos, a1, a2, a3, a4⟩
  · rintro ⟨v, hv, hvpos⟩
    have hexists : ∃ x ∈ verified.insertionSort (scoreDescLE src orig existing),
        (decide (0 < scoreCandidate src orig x existing)) = true :=
      ⟨v, (List.mem_insertionSort _).mpr hv, by simpa using hvpos⟩
    have hsome := List.find?_isSome.mpr hexists
    obtain ⟨c, hcfind⟩ := Option.isSome_iff_exists.mp hsome
    refine ⟨c, (List.mem_insertionSort _).mp (List.mem_of_find?_eq_some hcfind), ?_⟩
    unfold pickReplacement
    simp only [hcfind]
  · intro hver hglob
    unfold pickReplacement
    have hfind : (verified.insertionSort (scoreDescLE src orig existing)).find?
        (fun c => decide (0 < scoreCandidate src orig c existing)) = none := by
      rw [List.find?_eq_none]
      intro x hx
      simp only [decide_eq_true_eq, not_lt]
      exact hver x ((List.mem_insertionSort _).mp hx)
    simp only [hfind]
    cases hbest : (bestGlobal src orig existing globalCands).1 with
    | none => rfl
    | some b =>
      obtain ⟨hsc, hmem⟩ := bestGlobal_some src orig existing globalCands b hbest
      dsimp only
      rw [if_neg]
      rintro ⟨-, hpos⟩
      rw [hsc] at hpos
      exact absurd hpos (not_lt.mpr (hglob b hmem))

theorem C5_pick_replacement_witness :
    pickReplacement "alpha-helmet".data "beta-shield".data [] [] [] = none :=
  (C5_pick_replacement "alpha-helmet".data "beta-shield".data [] [] []).2.2
    (by simp) (by simp)

theorem fixGo_frame (verifiedBy : List (Slug × List Slug)) (globalCands : List Slug)
    (l : List DataRow) :
    ∀ st : List (Slug × List Slug),
      List.Forall₂ (fun r r' =>
        r'.productId = r.productId ∧ r'.rest = r.rest ∧
        (r'.recId ≠ r.recId →
          ¬ isCategoryRow (trimL r.productId) ∧
          isDefiniteMismatch (trimL r.productId) (trimL r.recId) ∧
          ∃ existing,
            pickReplacement (trimL r.productId) (trimL r.recId) existing
              ((assocFind verifiedBy (trimL r.productId)).getD []) globalCands
              = some r'.recId ∧
            0 < scoreCandidate (trimL r.productId) (trimL r.recId) r'.recId existing))
        l (fixGo verifiedBy globalCands st l) := by
  induction l with
  | nil =>
    intro st
    simp [fixGo]
  | cons row rest ih =>
    intro st
    unfold fixGo
    by_cases h1 : trimL row.productId = [] ∨ trimL row.recId = []
    · rw [if_pos h1]
      exact List.Forall₂.cons ⟨rfl, rfl, fun hne => absurd rfl hne⟩ (ih st)
    · rw [if_neg h1]
      by_cases h2 : isCategoryRow (trimL row.productId)
      · rw [if_pos h2]
        exact List.Forall₂.cons ⟨rfl, rfl, fun hne => absurd rfl hne⟩ (ih st)
      · rw [if_neg h2]
        by_cases h3 : isDefiniteMismatch (trimL row.productId) (trimL row.recId)
        · rw [if_neg (not_not_intro h3)]
          cases hp : pickReplacement (trimL row.productId) (trimL row.recId)
              (((assocFind st (trimL row.productId)).getD []).filter
                (fun y => decide (y ≠ trimL row.recId)))
              ((assocFind verifiedBy (trimL row.productId)).getD []) globalCands with
          | none =>
            simp only [hp]
            exact List.Forall₂.cons ⟨rfl, rfl, fun hne => absurd rfl hne⟩ (ih st)
          | some repl =>
            simp only [hp]
            refine List.Forall₂.cons ⟨rfl, rfl, fun _ => ⟨h2, h3, _, hp, ?_⟩⟩ (ih _)
            exact pickReplacement_some_pos hp
        · rw [if_pos h3]
          exact List.Forall₂.cons ⟨rfl, rfl, fun hne => absurd rfl hne⟩ (ih st)

/-- C9: the auto-fixer's row transformation keeps the number and order of rows,
never touches any field except `Recommended Product ID`, and rewrites that
field only on non-category rows that are definite mismatches for which
pick_replacement finds a (positive-scoring) replacement; all other rows —
including unresolved mismatches — pass through unchanged. -/
theorem C9_autofix_frame (rows : List DataRow) (proofRows : List ProofRow) :
    List.Forall₂ (fun r r' =>
      r'.productId = r.productId ∧ r'.rest = r.rest ∧
      (r'.recId ≠ r.recId →
        ¬ isCategoryRow (trimL r.productId) ∧
        isDefiniteMismatch (trimL r.productId) (trimL r.recId) ∧
        ∃ existing,
          pickReplacement (trimL r.productId) (trimL r.recId) existing
            ((assocFind (loadVerifiedProofs proofRows) (trimL r.productId)).getD [])
            (buildGlobalCandidates rows) = some r'.recId ∧
          0 < scoreCandidate (trimL r.productId) (trimL r.recId) r'.recId existing))
      rows (autofixRows rows proofRows) :=
  fixGo_frame (loadVerifiedProofs proofRows) (buildGlobalCandidates rows) rows
    (buildProductRecs rows)

theorem mem_poolGet {pool : Pool} {t rid : Slug} (h : rid ∈ poolGet pool t) :
    ∃ e ∈ pool, e.1 = t ∧ rid ∈ e.2 := by
  unfold poolGet assocFind at h
  cases hf : pool.find? (fun e => decide (e.1 = t)) with
  | none =>
    rw [hf] at h
    simp at h
  | some e =>
    rw [hf] at h
    simp only [Option.getD_some] at h
    exact ⟨e, List.mem_of_find?_eq_some hf, by simpa using List.find?_some hf, h⟩

theorem passesBrandFilter_cases {sourceType sourceBrand recType rid : Slug}
    (h : passesBrandFilter sourceType sourceBrand recType rid = true)
    (hjp : srcJP sourceType = true) (hjpg : recJPG recType = true) :
    sourceBrand = [] ∨ extractBrandToken rid = [] ∨ extractBrandToken rid = sourceBrand := by
  by_contra hall
  push_neg at hall
  obtain ⟨h1, h2, h3⟩ := hall
  have h4 : sourceBrand ≠ extractBrandToken rid := fun he => h3 he.symm
  unfold passesBrandFilter at h
  rw [hjp, hjpg] at h
  simp [h1, h2, h4] at h

theorem generic_pick_spec {candidates selectedIds : List Slug}
    {sourceType sourceBrand recType rid : Slug}
    (h : (candidates.find? (fun r => decide (r ∉ selectedIds) &&
      passesBrandFilter sourceType sourceBrand recType r)).getD [] = rid)
    (hne : rid ≠ []) :
    rid ∉ selectedIds ∧ rid ∈ candidates ∧
    passesBrandFilter sourceType sourceBrand recType rid = true := by
  cases hf : candidates.find? (fun r => decide (r ∉ selectedIds) &&
      passesBrandFilter sourceType sourceBrand recType r) with
  | none =>
    rw [hf] at h
    exact absurd h.symm hne
  | some r =>
    rw [hf] at h
    simp only [Option.getD_some] at h
    subst h
    have hp := List.find?_some hf
    simp only [Bool.and_eq_true, decide_eq_true_eq] at hp
    exact ⟨hp.1, List.mem_of_find?_eq_some hf, hp.2⟩

theorem pickGlobalCandidate_spec {pool : Pool} {sourceType sourceBrand recType rid : Slug}
    {selectedIds : List Slug}
    (h : pickGlobalCandidate pool sourceType sourceBrand recType selectedIds = rid)
    (hne : rid ≠ []) :
    rid ∉ selectedIds ∧ rid ∈ poolGet pool recType ∧
    (srcJP sourceType = true → recJPG recType = true →
      sourceBrand = [] ∨ extractBrandToken rid = sourceBrand ∨
      (recType = "gloves".data ∧ extractBrandToken rid = "alpinestars".data) ∨
      extractBrandToken rid = []) := by
  unfold pickGlobalCandidate at h
  by_cases hsp : (srcJP sourceType && decide (recType = "gloves".data)) = true
  · rw [if_pos hsp] at h
    cases hf1 : (poolGet pool recType).find? (fun r => decide (r ∉ selectedIds) &&
        decide (sourceBrand ≠ []) && decide (extractBrandToken r = sourceBrand)) with
    | some r =>
      simp only [hf1] at h
      subst h
      have hp := List.find?_some hf1
      simp only [Bool.and_eq_true, decide_eq_true_eq] at hp
      exact ⟨hp.1.1, List.mem_of_find?_eq_some hf1, fun _ _ => Or.inr (Or.inl hp.2)⟩
    | none =>
      simp only [hf1] at h
      cases hf2 : (poolGet pool recType).find? (fun r => decide (r ∉ selectedIds) &&
          decide (extractBrandToken r = "alpinestars".data)) with
      | some r =>
        simp only [hf2] at h
        subst h
        have hp := List.find?_some hf2
        simp only [Bool.and_eq_true, decide_eq_true_eq] at hp
        have hgl : recType = "gloves".data := by
          simp only [Bool.and_eq_true, decide_eq_true_eq] at hsp
          exact hsp.2
        exact ⟨hp.1, List.mem_of_find?_eq_some hf2,
          fun _ _ => Or.inr (Or.inr (Or.inl ⟨hgl, hp.2⟩))⟩
      | none =>
        simp only [hf2] at h
        obtain ⟨h1, h2, h3⟩ := generic_pick_spec h hne
        refine ⟨h1, h2, fun hjp hjpg => ?_⟩
        rcases passesBrandFilter_cases h3 hjp hjpg with hb | hb | hb
        · exact Or.inl hb
        · exact Or.inr (Or.inr (Or.inr hb))
        · exact Or.inr (Or.inl hb)
  · rw [if_neg hsp] at h
    obtain ⟨h1, h2, h3⟩ := generic_pick_spec h hne
    refine ⟨h1, h2, fun hjp hjpg => ?_⟩
    rcases passesBrandFilter_cases h3 hjp hjpg with hb | hb | hb
    · exact Or.inl hb
    · exact Or.inr (Or.inr (Or.inr hb))
    · exact Or.inr (Or.inl hb)

theorem pickGlobalCandidateAny_spec {sourceType sourceBrand : Slug}
    {selectedIds usedTypes : List Slug} :
    ∀ {pool : Pool} {rid t : Slug},
    pickGlobalCandidateAny sourceType sourceBrand selectedIds usedTypes pool = (rid, t) →
    rid ≠ [] →
    t ∉ usedTypes ∧ rid ∉ selectedIds ∧ (∃ e ∈ pool, e.1 = t ∧ rid ∈ e.2) ∧
    (srcJP sourceType = true → recJPG t = true →
      sourceBrand = [] ∨ extractBrandToken rid = sourceBrand ∨
      extractBrandToken rid = []) := by
  intro pool
  induction pool with
  | nil =>
    intro rid t h hne
    unfold pickGlobalCandidateAny at h
    cases h
    exact absurd rfl hne
  | cons e rest ih =>
    intro rid t h hne
    obtain ⟨recType, candidates⟩ := e
    simp only [pickGlobalCandidateAny] at h
    by_cases hused : recType ∈ usedTypes
    · rw [if_pos hused] at h
      obtain ⟨a1, a2, a3, a4⟩ := ih h hne
      obtain ⟨e', he', hee⟩ := a3
      exact ⟨a1, a2, ⟨e', List.mem_cons_of_mem _ he', hee⟩, a4⟩
    · rw [if_neg hused] at h
      cases hf : candidates.find? (fun r => decide (r ∉ selectedIds) &&
          passesBrandFilter sourceType sourceBrand recType r) with
      | some r =>
        simp only [hf] at h
        injection h with h5 h6
        subst h5
        subst h6
        have hp := List.find?_some hf
        simp only [Bool.and_eq_true, decide_eq_true_eq] at hp
        refine ⟨hused, hp.1,
          ⟨(recType, candidates), List.mem_cons_self _ _, rfl, List.mem_of_find?_eq_some hf⟩,
          fun hjp hjpg => ?_⟩
        rcases passesBrandFilter_cases hp.2 hjp hjpg with hb | hb | hb
        · exact Or.inl hb
        · exact Or.inr (Or.inr hb)
        · exact Or.inr (Or.inl hb)
      | none =>
        simp only [hf] at h
        obtain ⟨a1, a2, a3, a4⟩ := ih h hne
        obtain ⟨e', he', hee⟩ := a3
        exact ⟨a1, a2, ⟨e', List.mem_cons_of_mem _ he', hee⟩, a4⟩

theorem phase1_length {l : List RecEntry} :
    ∀ {st : SelState}, st.selected.length < perProductLimit →
      (phase1 l st).selected.length ≤ perProductLimit := by
  induction l with
  | nil =>
    intro st h
    exact Nat.le_of_lt h
  | cons r rest ih =>
    intro st h
    simp only [phase1]
    split_ifs with c1 c2 c3
    · exact ih h
    · exact ih h
    · simpa using Nat.succ_le_of_lt h
    · exact ih (by simpa using Nat.lt_of_not_le c3)

theorem phase2_length {pool : Pool} {sourceType sourceBrand : Slug} {dts : List Slug} :
    ∀ {st : SelState}, st.selected.length < perProductLimit →
      (phase2 pool sourceType sourceBrand dts st).selected.length ≤ perProductLimit := by
  induction dts with
  | nil =>
    intro st h
    exact Nat.le_of_lt h
  | cons dt rest ih =>
    intro st h
    simp only [phase2]
    split_ifs with c1 c2 c3
    · exact ih h
    · exact ih h
    · simpa using Nat.succ_le_of_lt h
    · exact ih (by simpa using Nat.lt_of_not_le c3)

theorem phase3_length {pool : Pool} {sourceType sourceBrand : Slug} :
    ∀ (fuel : Nat) {st : SelState}, st.selected.length ≤ perProductLimit →
      (phase3 pool sourceType sourceBrand fuel st).selected.length ≤ perProductLimit := by
  intro fuel
  induction fuel with
  | zero =>
    intro st h
    exact h
  | succ n ih =>
    intro st h
    simp only [phase3]
    split_ifs with c1 c2
    · exact h
    · exact h
    · exact ih (by simpa using Nat.lt_of_not_le c1)

theorem phase1_selInv {l : List RecEntry} :
    ∀ {st : SelState}, SelInv st → SelInv (phase1 l st) := by
  induction l with
  | nil =>
    intro st h
    exact h
  | cons r rest ih =>
    intro st h
    have hmk : ∀ hc : ¬ (r.id = [] ∨ r.id ∈ st.selectedIds),
        SelInv ⟨st.selected ++ [r], r.id :: st.selectedIds,
          detectProductType r.id :: st.seenTypes⟩ := by
      intro hc
      refine ⟨List.Nodup.cons (fun hmem => hc (Or.inr hmem)) h.1, ?_⟩
      simp only [List.map_append, List.reverse_cons, List.map_cons, List.map_nil]
      rw [h.2]
    simp only [phase1]
    split_ifs with c1 c2 c3
    · exact ih h
    · exact ih h
    · exact hmk c1
    · exact ih (hmk c1)

theorem phase1_typeInv {l : List RecEntry} :
    ∀ {st : SelState}, TypeInv st → TypeInv (phase1 l st) := by
  induction l with
  | nil =>
    intro st h
    exact h
  | cons r rest ih =>
    intro st h
    have hmk : ∀ _ : detectProductType r.id ∉ st.seenTypes,
        TypeInv ⟨st.selected ++ [r], r.id :: st.selectedIds,
          detectProductType r.id :: st.seenTypes⟩ := by
      intro hc
      refine ⟨List.Nodup.cons hc h.1, ?_⟩
      simp only [List.map_append, List.reverse_cons, List.map_cons, List.map_nil]
      rw [h.2]
    simp only [phase1]
    split_ifs with c1 c2 c3
    · exact ih h
    · exact ih h
    · exact hmk c2
    · exact ih (hmk c2)

theorem phase1_pres (P : RecEntry → Prop) {l : List RecEntry} (hl : ∀ r ∈ l, P r) :
    ∀ {st : SelState}, (∀ x ∈ st.selected, P x) →
      ∀ x ∈ (phase1 l st).selected, P x := by
  induction l with
  | nil =>
    intro st hsel
    exact hsel
  | cons r rest ih =>
    intro st hsel
    have hl' : ∀ r' ∈ rest, P r' := fun r' hr' => hl r' (List.mem_cons_of_mem _ hr')
    have hsel' : ∀ x ∈ st.selected ++ [r], P x := by
      intro x hx
      rcases List.mem_append.mp hx with hx | hx
      · exact hsel x hx
      · rw [List.mem_singleton.mp hx]
        exact hl r (List.mem_cons_self _ _)
    simp only [phase1]
    split_ifs with c1 c2 c3
    · exact ih hl' hsel
    · exact ih hl' hsel
    · exact hsel'
    · exact ih hl' hsel'

theorem phase2_selInv {pool : Pool} {sourceType sourceBrand : Slug} {dts : List Slug} :
    ∀ {st : SelState}, SelInv st →
      SelInv (phase2 pool sourceType sourceBrand dts st) := by
  induction dts with
  | nil =>
    intro st h
    exact h
  | cons dt rest ih =>
    intro st h
    have hmk : ∀ _ : ¬ pickGlobalCandidate pool sourceType sourceBrand dt st.selectedIds = [],
        SelInv ⟨st.selected ++
            [mkBackfill (pickGlobalCandidate pool sourceType sourceBrand dt st.selectedIds)],
          pickGlobalCandidate pool sourceType sourceBrand dt st.selectedIds :: st.selectedIds,
          dt :: st.seenTypes⟩ := by
      intro hc
      obtain ⟨hnot, _, _⟩ := pickGlobalCandidate_spec rfl hc
      refine ⟨List.Nodup.cons hnot h.1, ?_⟩
      simp only [List.map_append, List.reverse_cons, List.map_cons, List.map_nil]
      rw [h.2]
      rfl
    simp only [phase2]
    split_ifs with c1 c2 c3
    · exact ih h
    · exact ih h
    · exact hmk c2
    · exact ih (hmk c2)

theorem phase2_typeInv {pool : Pool} {sourceType sourceBrand : Slug} {dts : List Slug}
    (hWF : PoolWF pool) :
    ∀ {st : SelState}, TypeInv st →
      TypeInv (phase2 pool sourceType sourceBrand dts st) := by
  induction dts with
  | nil =>
    intro st h
    exact h
  | cons dt rest ih =>
    intro st h
    have hmk : ∀ _ : dt ∉ st.seenTypes,
        ∀ _ : ¬ pickGlobalCandidate pool sourceType sourceBrand dt st.selectedIds = [],
        TypeInv ⟨st.selected ++
            [mkBackfill (pickGlobalCandidate pool sourceType sourceBrand dt st.selectedIds)],
          pickGlobalCandidate pool sourceType sourceBrand dt st.selectedIds :: st.selectedIds,
          dt :: st.seenTypes⟩ := by
      intro hseen hc
      obtain ⟨-, hmem, -⟩ := pickGlobalCandidate_spec rfl hc
      obtain ⟨e, he, het, hride⟩ := mem_poolGet hmem
      have hdet : detectProductType
          (pickGlobalCandidate pool sourceType sourceBrand dt st.selectedIds) = dt := by
        rw [hWF e he _ hride, het]
      refine ⟨List.Nodup.cons hseen h.1, ?_⟩
      simp only [List.map_append, List.reverse_cons, List.map_cons, List.map_nil]
      rw [h.2]
      simp [mkBackfill, hdet]
    simp only [phase2]
    split_ifs with c1 c2 c3
    · exact ih h
    · exact ih h
    · exact hmk c1 c2
    · exact ih (hmk c1 c2)

theorem phase2_pres (P : RecEntry → Prop) {pool : Pool} {sourceType sourceBrand : Slug}
    (hpick : ∀ dt (ids : List Slug),
      ¬ pickGlobalCandidate pool sourceType sourceBrand dt ids = [] →
      P (mkBackfill (pickGlobalCandidate pool sourceType sourceBrand dt ids))) :
    ∀ {dts : List Slug} {st : SelState}, (∀ x ∈ st.selected, P x) →
      ∀ x ∈ (phase2 pool sourceType sourceBrand dts st).selected, P x := by
  intro dts
  induction dts with
  | nil =>
    intro st hsel
    exact hsel
  | cons dt rest ih =>
    intro st hsel
    have hsel' : ∀ _ : ¬ pickGlobalCandidate pool sourceType sourceBrand dt st.selectedIds = [],
        ∀ x ∈ st.selected ++
          [mkBackfill (pickGlobalCandidate pool sourceType sourceBrand dt st.selectedIds)],
        P x := by
      intro hc x hx
      rcases List.mem_append.mp hx with hx | hx
      · exact hsel x hx
      · rw [List.mem_singleton.mp hx]
        exact hpick dt st.selectedIds hc
    simp only [phase2]
    split_ifs with c1 c2 c3
    · exact ih hsel
    · exact ih hsel
    · exact hsel' c2
    · exact ih (hsel' c2)

theorem phase3_selInv {pool : Pool} {sourceType sourceBrand : Slug} :
    ∀ (fuel : Nat) {st : SelState}, SelInv st →
      SelInv (phase3 pool sourceType sourceBrand fuel st) := by
  intro fuel
  induction fuel with
  | zero =>
    intro st h
    exact h
  | succ n ih =>
    intro st h
    simp only [phase3]
    split_ifs with c1 c2
    · exact h
    · exact h
    · apply ih
      cases hp : pickGlobalCandidateAny sourceType sourceBrand st.selectedIds st.seenTypes pool
        with
      | mk rid t =>
        obtain ⟨-, hnot, -, -⟩ := pickGlobalCandidateAny_spec hp (by rw [hp] at c2; simpa using c2)
        refine ⟨List.Nodup.cons hnot h.1, ?_⟩
        simp only [List.map_append, List.reverse_cons, List.map_cons, List.map_nil]
        rw [h.2]
        rfl

theorem phase3_typeInv {pool : Pool} {sourceType sourceBrand : Slug} (hWF : PoolWF pool) :
    ∀ (fuel : Nat) {st : SelState}, TypeInv st →
      TypeInv (phase3 pool sourceType sourceBrand fuel st) := by
  intro fuel
  induction fuel with
  | zero =>
    intro st h
    exact h
  | succ n ih =>
    intro st h
    simp only [phase3]
    split_ifs with c1 c2
    · exact h
    · exact h
    · apply ih
      cases hp : pickGlobalCandidateAny sourceType sourceBrand st.selectedIds st.seenTypes pool
        with
      | mk rid t =>
        obtain ⟨hused, -, hmem, -⟩ := pickGlobalCandidateAny_spec hp (by rw [hp] at c2; simpa using c2)
        obtain ⟨e, he, het, hride⟩ := hmem
        have hdet : detectProductType rid = t := by
          rw [hWF e he _ hride, het]
        refine ⟨List.Nodup.cons hused h.1, ?_⟩
        simp only [List.map_append, List.reverse_cons, List.map_cons, List.map_nil]
        rw [h.2]
        simp [mkBackfill, hdet]

theorem phase3_pres (P : RecEntry → Prop) {pool : Pool} {sourceType sourceBrand : Slug}
    (hpick : ∀ (ids types : List Slug) rid t,
      pickGlobalCandidateAny sourceType sourceBrand ids types pool = (rid, t) →
      rid ≠ [] → P (mkBackfill rid)) :
    ∀ (fuel : Nat) {st : SelState}, (∀ x ∈ st.selected, P x) →
      ∀ x ∈ (phase3 pool sourceType sourceBrand fuel st).selected, P x := by
  intro fuel
  induction fuel with
  | zero =>
    intro st hsel
    exact hsel
  | succ n ih =>
    intro st hsel
    simp only [phase3]
    split_ifs with c1 c2
    · exact hsel
    · exact hsel
    · apply ih
      cases hp : pickGlobalCandidateAny sourceType sourceBrand st.selectedIds st.seenTypes pool
        with
      | mk rid t =>
        intro x hx
        rcases List.mem_append.mp hx with hx | hx
        · exact hsel x hx
        · rw [List.mem_singleton.mp hx]
          exact hpick st.selectedIds st.seenTypes rid t hp (by rw [hp] at c2; simpa using c2)

theorem selInv_nodup {st : SelState} (h : SelInv st) :
    (st.selected.map RecEntry.id).Nodup := by
  rw [h.2]
  exact List.nodup_reverse.mpr h.1

theorem typeInv_nodup {st : SelState} (h : TypeInv st) :
    (st.selected.map (fun r => detectProductType r.id)).Nodup := by
  rw [h.2]
  exact List.nodup_reverse.mpr h.1

/-- C1 (amended): `_apply_recommendation_constraints` returns at most 3 entries
and never two entries with the same id; and it returns no entry whose id equals
the source product id provided the source id occurs neither among the raw
recommendation ids nor in any global-pool bucket.  (Without that proviso the
source id can be returned — see the counterexample.) -/
theorem C1_apply_constraints (pool : Pool) (productId : Slug)
    (recommendations : List RecEntry) :
    (applyConstraints pool productId recommendations).length ≤ 3
    ∧ ((applyConstraints pool productId recommendations).map RecEntry.id).Nodup
    ∧ ((∀ r ∈ recommendations, r.id ≠ productId) →
       (∀ e ∈ pool, productId ∉ e.2) →
       ∀ r ∈ applyConstraints pool productId recommendations, r.id ≠ productId) := by
  refine ⟨?_, ?_, ?_⟩
  · simp only [applyConstraints]
    apply phase3_length
    split_ifs with hlen
    · exact phase2_length hlen
    · exact phase1_length (by simp [perProductLimit])
  · simp only [applyConstraints]
    apply selInv_nodup
    apply phase3_selInv
    split_ifs with hlen
    · exact phase2_selInv (phase1_selInv ⟨List.nodup_nil, rfl⟩)
    · exact phase1_selInv ⟨List.nodup_nil, rfl⟩
  · intro hrecs hpool
    simp only [applyConstraints]
    apply phase3_pres (fun x => x.id ≠ productId)
    · intro ids types rid t hp hne
      obtain ⟨-, -, hmem, -⟩ := pickGlobalCandidateAny_spec hp hne
      obtain ⟨e, he, -, hride⟩ := hmem
      intro heq
      rw [show (mkBackfill rid).id = rid from rfl] at heq
      rw [heq] at hride
      exact hpool e he hride
    · split_ifs with hlen
      · apply phase2_pres (fun x => x.id ≠ productId)
        · intro dt ids hc
          obtain ⟨-, hmem, -⟩ := pickGlobalCandidate_spec rfl hc
          obtain ⟨e, he, -, hride⟩ := mem_poolGet hmem
          intro heq
          rw [show (mkBackfill (pickGlobalCandidate pool (detectProductType productId)
            (extractBrandToken productId) dt ids)).id =
            pickGlobalCandidate pool (detectProductType productId)
              (extractBrandToken productId) dt ids from rfl] at heq
          rw [heq] at hride
          exact hpool e he hride
        · apply phase1_pres (fun x => x.id ≠ productId)
          · intro r hr
            have hmem := List.mem_filter.mp hr
            exact hrecs r ((List.mem_insertionSort _).mp hmem.1)
          · intro x hx
            simp at hx
      · apply phase1_pres (fun x => x.id ≠ productId)
        · intro r hr
          have hmem := List.mem_filter.mp hr
          exact hrecs r ((List.mem_insertionSort _).mp hmem.1)
        · intro x hx
          simp at hx

/-- Counterexample to C1 as stated: when the raw recommendation list itself
contains the source product id, `_apply_recommendation_constraints` returns it
(no phase checks an entry against the source id). -/
theorem C1_counterexample :
    "foo-helmet".data ∈ (applyConstraints [] "foo-helmet".data
      [RecEntry.mk "foo-helmet".data [] []]).map RecEntry.id := by
  decide

theorem C1_apply_constraints_witness :
    (∀ r ∈ [RecEntry.mk "b-gloves".data [] []], r.id ≠ "a-helmet".data)
    ∧ (∀ e ∈ ([] : Pool), "a-helmet".data ∉ e.2)
    ∧ ∀ r ∈ applyConstraints [] "a-helmet".data [RecEntry.mk "b-gloves".data [] []],
        r.id ≠ "a-helmet".data :=
  ⟨by decide, by decide,
   (C1_apply_constraints [] "a-helmet".data [RecEntry.mk "b-gloves".data [] []]).2.2
     (by decide) (by decide)⟩

/-- C10: with a well-formed global pool (every pool bucket holds only ids that
detect as the bucket's type, as `_refresh_global_rec_pool` guarantees), the
entries returned by `_apply_recommendation_constraints` have pairwise distinct
detected product types — every selection phase skips already-used types — so in
particular at most one entry of type `unknown`. -/
theorem C10_distinct_types (pool : Pool) (productId : Slug)
    (recommendations : List RecEntry) (hWF : PoolWF pool) :
    ((applyConstraints pool productId recommendations).map
      (fun r => detectProductType r.id)).Nodup := by
  simp only [applyConstraints]
  apply typeInv_nodup
  apply phase3_typeInv hWF
  split_ifs with hlen
  · exact phase2_typeInv hWF (phase1_typeInv ⟨List.nodup_nil, rfl⟩)
  · exact phase1_typeInv ⟨List.nodup_nil, rfl⟩

theorem C10_distinct_types_witness :
    PoolWF [("gloves".data, ["klim-gloves".data])]
    ∧ ((applyConstraints [("gloves".data, ["klim-gloves".data])] "klim-jacket".data
        [RecEntry.mk "klim-boots".data [] []]).map
          (fun r => detectProductType r.id)).Nodup :=
  ⟨by decide, C10_distinct_types _ _ _ (by decide)⟩

/-- C2 (amended): for a jacket/pants source, every entry returned by
`_apply_recommendation_constraints` whose detected type is jacket, pants or
gloves either carries the source's extracted brand token, or the source has no
extractable brand token — or it is an `alpinestars`-branded glove supplied by
the special gloves fallback of `_pick_global_candidate` (the case that refutes
the claim as stated).  The pool is assumed well-formed, as
`_refresh_global_rec_pool` guarantees. -/
theorem C2_apparel_brand_consistency (pool : Pool) (productId : Slug)
    (recommendations : List RecEntry) (hWF : PoolWF pool)
    (hjp : srcJP (detectProductType productId) = true) :
    ∀ r ∈ applyConstraints pool productId recommendations,
      recJPG (detectProductType r.id) = true →
      extractBrandToken r.id = extractBrandToken productId
      ∨ extractBrandToken productId = []
      ∨ (detectProductType r.id = "gloves".data ∧
         extractBrandToken r.id = "alpinestars".data) := by
  simp only [applyConstraints]
  apply phase3_pres (fun x => recJPG (detectProductType x.id) = true →
    extractBrandToken x.id = extractBrandToken productId
    ∨ extractBrandToken productId = []
    ∨ (detectProductType x.id = "gloves".data ∧
       extractBrandToken x.id = "alpinestars".data))
  · intro ids types rid t hp hne hg
    obtain ⟨-, -, hmem, hbrand⟩ := pickGlobalCandidateAny_spec hp hne
    obtain ⟨e, he, het, hride⟩ := hmem
    have hdet : detectProductType rid = t := by
      rw [hWF e he _ hride, het]
    rw [show (mkBackfill rid).id = rid from rfl] at hg ⊢
    rw [hdet] at hg
    rcases hbrand hjp hg with hb | hb | hb
    · exact Or.inr (Or.inl hb)
    · exact Or.inl hb
    · exact absurd hb (brand_ne_nil_of_recJPG (by rw [hdet]; exact hg))
  · split_ifs with hlen
    · apply phase2_pres (fun x => recJPG (detectProductType x.id) = true →
        extractBrandToken x.id = extractBrandToken productId
        ∨ extractBrandToken productId = []
        ∨ (detectProductType x.id = "gloves".data ∧
           extractBrandToken x.id = "alpinestars".data))
      · intro dt ids hc hg
        obtain ⟨-, hmem, hbrand⟩ := pickGlobalCandidate_spec rfl hc
        obtain ⟨e, he, het, hride⟩ := mem_poolGet hmem
        have hdet : detectProductType (pickGlobalCandidate pool
            (detectProductType productId) (extractBrandToken productId) dt ids) = dt := by
          rw [hWF e he _ hride, het]
        rw [show (mkBackfill (pickGlobalCandidate pool (detectProductType productId)
          (extractBrandToken productId) dt ids)).id = pickGlobalCandidate pool
          (detectProductType productId) (extractBrandToken productId) dt ids from rfl] at hg ⊢
        rw [hdet] at hg
        rcases hbrand hjp hg with hb | hb | hb | hb
        · exact Or.inr (Or.inl hb)
        · exact Or.inl hb
        · exact Or.inr (Or.inr ⟨by rw [hdet, hb.1], hb.2⟩)
        · exact absurd hb (brand_ne_nil_of_recJPG (by rw [hdet]; exact hg))
      · apply phase1_pres (fun x => recJPG (detectProductType x.id) = true →
          extractBrandToken x.id = extractBrandToken productId
          ∨ extractBrandToken productId = []
          ∨ (detectProductType x.id = "gloves".data ∧
             extractBrandToken x.id = "alpinestars".data))
        · intro r hr hg
          have hmem := List.mem_filter.mp hr
          have hpred := hmem.2
          simp only [Bool.and_eq_true, decide_eq_true_eq] at hpred
          have hdet := detectProductType_trimL r.id
          have hbr := extractBrandToken_trimL r.id
          have hjpg' : recJPG (detectProductType (trimL r.id)) = true := by
            rw [hdet]
            exact hg
          rcases passesBrandFilter_cases hpred.2 hjp hjpg' with hb | hb | hb
          · exact Or.inr (Or.inl hb)
          · exact absurd hb (by rw [hbr]; exact brand_ne_nil_of_recJPG hg)
          · rw [hbr] at hb
            exact Or.inl hb
        · intro x hx
          simp at hx
    · apply phase1_pres (fun x => recJPG (detectProductType x.id) = true →
        extractBrandToken x.id = extractBrandToken productId
        ∨ extractBrandToken productId = []
        ∨ (detectProductType x.id = "gloves".data ∧
           extractBrandToken x.id = "alpinestars".data))
      · intro r hr hg
        have hmem := List.mem_filter.mp hr
        have hpred := hmem.2
        simp only [Bool.and_eq_true, decide_eq_true_eq] at hpred
        have hdet := detectProductType_trimL r.id
        have hbr := extractBrandToken_trimL r.id
        have hjpg' : recJPG (detectProductType (trimL r.id)) = true := by
          rw [hdet]
          exact hg
        rcases passesBrandFilter_cases hpred.2 hjp hjpg' with hb | hb | hb
        · exact Or.inr (Or.inl hb)
        · exact absurd hb (by rw [hbr]; exact brand_ne_nil_of_recJPG hg)
        · rw [hbr] at hb
          exact Or.inl hb
      · intro x hx
        simp at hx

/-- Counterexample to C2 as stated: for the jacket source `klim-jacket` (brand
token `klim`) the gloves backfill returns `alpinestars-gloves`, a gloves-typed
entry whose brand token differs from the source's although the source has an
extractable brand token. -/
theorem C2_counterexample :
    detectProductType "klim-jacket".data = "jacket".data
    ∧ extractBrandToken "klim-jacket".data ≠ []
    ∧ "alpinestars-gloves".data ∈ (applyConstraints
        [("gloves".data, ["alpinestars-gloves".data])] "klim-jacket".data []).map RecEntry.id
    ∧ detectProductType "alpinestars-gloves".data = "gloves".data
    ∧ extractBrandToken "alpinestars-gloves".data ≠ extractBrandToken "klim-jacket".data := by
  decide

theorem C2_apparel_brand_consistency_witness :
    PoolWF [("gloves".data, ["klim-gloves".data])]
    ∧ srcJP (detectProductType "klim-jacket".data) = true
    ∧ ∀ r ∈ applyConstraints [("gloves".data, ["klim-gloves".data])] "klim-jacket".data [],
        recJPG (detectProductType r.id) = true →
        extractBrandToken r.id = extractBrandToken "klim-jacket".data
        ∨ extractBrandToken "klim-jacket".data = []
        ∨ (detectProductType r.id = "gloves".data ∧
           extractBrandToken r.id = "alpinestars".data) :=
  ⟨by decide, by decide,
   C2_apparel_brand_consistency [("gloves".data, ["klim-gloves".data])] "klim-jacket".data []
     (by decide) (by decide)⟩

theorem priorityRank_le (p : Slug) : priorityRank p ≤ 99 := by
  unfold priorityRank
  split_ifs <;> omega

theorem foldr_min_le99 (A : List Nat) : A.foldr min 99 ≤ 99 := by
  induction A with
  | nil => exact Nat.le_refl 99
  | cons a A ih => exact le_trans (Nat.min_le_right a _) ih

theorem foldr_min_ext {A : List Nat} {x : Nat} (hx : x ≤ 99) :
    A.foldr min x = min (A.foldr min 99) x := by
  induction A with
  | nil => simp [Nat.min_eq_right hx]
  | cons a A ih =>
    simp only [List.foldr_cons]
    rw [ih]
    exact (Nat.min_assoc a _ x).symm

theorem foldr_min_all99 {A : List Nat} (h : ∀ a ∈ A, a = 99) : A.foldr min 99 = 99 := by
  induction A with
  | nil => rfl
  | cons a A ih =>
    simp only [List.foldr_cons]
    rw [h a (List.mem_cons_self _ _), ih (fun a ha => h a (List.mem_cons_of_mem _ ha))]
    simp

theorem assocFind_none {κ β : Type} [DecidableEq κ] {l : List (κ × β)} {k : κ}
    (h : assocFind l k = none) : k ∉ l.map Prod.fst := by
  intro hk
  obtain ⟨e, he, hek⟩ := List.mem_map.mp hk
  unfold assocFind at h
  cases hf : l.find? (fun e => decide (e.1 = k)) with
  | some e' =>
    rw [hf] at h
    cases h
  | none =>
    have := List.find?_eq_none.mp hf e he
    simp [hek] at this

theorem assocFind_some_mem {κ β : Type} [DecidableEq κ] {l : List (κ × β)} {k : κ} {v : β}
    (h : assocFind l k = some v) : (k, v) ∈ l := by
  unfold assocFind at h
  cases hf : l.find? (fun e => decide (e.1 = k)) with
  | none =>
    rw [hf] at h
    cases h
  | some e =>
    rw [hf] at h
    cases h
    have hm := List.mem_of_find?_eq_some hf
    have hk : e.1 = k := by simpa using List.find?_some hf
    have : e = (k, e.2) := by
      rw [← hk]
    rwa [← this]

theorem assocFind_some_key {κ β : Type} [DecidableEq κ] {l : List (κ × β)} {k : κ} {v : β}
    (h : assocFind l k = some v) : k ∈ l.map Prod.fst :=
  List.mem_map.mpr ⟨(k, v), assocFind_some_mem h, rfl⟩

theorem updateAssoc_keys (l : List (Slug × AggInfo)) (k : Slug) (f : AggInfo → AggInfo) :
    (updateAssoc l k f).map Prod.fst = l.map Prod.fst := by
  induction l with
  | nil => rfl
  | cons e rest ih =>
    obtain ⟨k', v⟩ := e
    unfold updateAssoc
    by_cases h : k' = k
    · rw [if_pos h]
      simp
    · rw [if_neg h]
      simp only [List.map_cons]
      rw [ih]

theorem mem_updateAssoc {l : List (Slug × AggInfo)} {k : Slug} {f : AggInfo → AggInfo}
    {v : AggInfo} (hnodup : (l.map Prod.fst).Nodup) (hfind : assocFind l k = some v)
    {x : Slug} {i : AggInfo} :
    (x, i) ∈ updateAssoc l k f ↔
      ((x ≠ k ∧ (x, i) ∈ l) ∨ (x = k ∧ i = f v)) := by
  induction l with
  | nil =>
    unfold assocFind at hfind
    simp [List.find?] at hfind
  | cons e rest ih =>
    obtain ⟨k', w⟩ := e
    simp only [List.map_cons, List.nodup_cons] at hnodup
    by_cases hk : k' = k
    · have hv : v = w := by
        unfold assocFind at hfind
        rw [List.find?_cons_of_pos _ (by simp [hk])] at hfind
        cases hfind
        rfl
      have hupd : updateAssoc ((k', w) :: rest) k f = (k', f w) :: rest := by
        unfold updateAssoc
        rw [if_pos hk]
      rw [hupd, hv]
      constructor
      · intro hm1
        rcases List.mem_cons.mp hm1 with hm2 | hm2
        · injection hm2 with h1 h2
          exact Or.inr ⟨h1.trans hk, h2⟩
        · refine Or.inl ⟨?_, List.mem_cons_of_mem _ hm2⟩
          intro he
          apply hnodup.1
          rw [hk, ← he]
          exact List.mem_map.mpr ⟨(x, i), hm2, rfl⟩
      · intro hm1
        rcases hm1 with ⟨hx, hm2⟩ | ⟨hx, hi⟩
        · rcases List.mem_cons.mp hm2 with hm3 | hm3
          · injection hm3 with h1 h2
            exact absurd (h1.trans hk) hx
          · exact List.mem_cons_of_mem _ hm3
        · rw [hi, show x = k' from hx.trans hk.symm]
          exact List.mem_cons_self _ _
    · have hfind2 : assocFind rest k = some v := by
        unfold assocFind at hfind ⊢
        rw [List.find?_cons_of_neg _ (by simp [hk])] at hfind
        exact hfind
      have hupd : updateAssoc ((k', w) :: rest) k f = (k', w) :: updateAssoc rest k f := by
        cases rest with
        | nil => simp [updateAssoc, hk]
        | cons e rest2 => simp [updateAssoc, hk]
      rw [hupd]
      constructor
      · intro hm1
        rcases List.mem_cons.mp hm1 with hm2 | hm2
        · injection hm2 with h1 h2
          rw [h1, h2]
          exact Or.inl ⟨hk, List.mem_cons_self _ _⟩
        · rcases (ih hnodup.2 hfind2).mp hm2 with ⟨hx, hm3⟩ | hm3
          · exact Or.inl ⟨hx, List.mem_cons_of_mem _ hm3⟩
          · exact Or.inr hm3
      · intro hm1
        rcases hm1 with ⟨hx, hm2⟩ | hm2
        · rcases List.mem_cons.mp hm2 with hm3 | hm3
          · rw [hm3]
            exact List.mem_cons_self _ _
          · exact List.mem_cons_of_mem _ ((ih hnodup.2 hfind2).mpr (Or.inl ⟨hx, hm3⟩))
        · exact List.mem_cons_of_mem _ ((ih hnodup.2 hfind2).mpr (Or.inr hm2))

theorem filter_id_length {l : List RecEntry} {rid : Slug}
    (h : (l.map RecEntry.id).Nodup) :
    (l.filter (fun r => decide (r.id = rid))).length =
      if rid ∈ l.map RecEntry.id then 1 else 0 := by
  induction l with
  | nil => simp
  | cons r rest ih =>
    simp only [List.map_cons, List.nodup_cons] at h
    rw [List.filter_cons]
    by_cases hr : r.id = rid
    · rw [if_pos (by simpa using hr)]
      have hnil : rest.filter (fun r' => decide (r'.id = rid)) = [] := by
        rw [List.filter_eq_nil_iff]
        intro x hx
        simp only [decide_eq_true_eq]
        intro he
        apply h.1
        rw [hr, ← he]
        exact List.mem_map.mpr ⟨x, hx, rfl⟩
      rw [hnil]
      have : rid ∈ r.id :: rest.map RecEntry.id := by
        rw [← hr]
        exact List.mem_cons_self _ _
      simp [List.map_cons, this]
    · rw [if_neg (by simpa using hr)]
      rw [ih h.2]
      have : (rid ∈ r.id :: rest.map RecEntry.id) ↔ (rid ∈ rest.map RecEntry.id) := by
        constructor
        · intro hm
          rcases List.mem_cons.mp hm with hm | hm
          · exact absurd hm.symm hr
          · exact hm
        · exact List.mem_cons_of_mem _
      simp only [List.map_cons]
      rw [if_congr this rfl rfl]

theorem count_contribs {cartIds : List Slug} {resolve : Slug → List RecEntry}
    (hnodup : ∀ c ∈ cartIds, ((resolve c).map RecEntry.id).Nodup) (rid : Slug) :
    cartIds.countP (fun c => decide (rid ∈ (resolve c).map RecEntry.id)) =
      ((cartIds.flatMap resolve).filter (fun r => decide (r.id = rid))).length := by
  induction cartIds with
  | nil => rfl
  | cons c cs ih =>
    rw [List.countP_cons, List.flatMap_cons, List.filter_append, List.length_append]
    rw [ih (fun c' hc' => hnodup c' (List.mem_cons_of_mem _ hc'))]
    rw [filter_id_length (hnodup c (List.mem_cons_self _ _))]
    by_cases hm : rid ∈ (resolve c).map RecEntry.id
    · rw [if_pos hm, if_pos (by simpa using hm)]
      omega
    · rw [if_neg hm, if_neg (by simpa using hm)]
      omega

theorem fbtInfo_eq_flat (cartIds : List Slug) (resolve : Slug → List RecEntry) :
    fbtInfo cartIds resolve = (cartIds.flatMap resolve).foldl (fbtStep cartIds) [] := by
  suffices h : ∀ (l : List Slug) (acc : List (Slug × AggInfo)),
      l.foldl (fun a cid => (resolve cid).foldl (fbtStep cartIds) a) acc =
        (l.flatMap resolve).foldl (fbtStep cartIds) acc by
    exact h cartIds []
  intro l
  induction l with
  | nil =>
    intro acc
    rfl
  | cons c cs ih =>
    intro acc
    rw [List.foldl_cons, List.flatMap_cons, List.foldl_append]
    exact ih _

theorem label_update_spec {A : List Slug} {oldLabel : Slug} (x : Slug)
    (hold : oldLabel = ((A.find? (fun s => decide (s ≠ []))).getD [])) :
    (if x ≠ [] ∧ oldLabel = [] then x else oldLabel) =
      (((A ++ [x]).find? (fun s => decide (s ≠ []))).getD []) := by
  rw [List.find?_append]
  cases hA : A.find? (fun s => decide (s ≠ [])) with
  | some s =>
    have hs : s ≠ [] := by simpa using List.find?_some hA
    rw [hA] at hold
    simp only [Option.getD_some] at hold
    rw [if_neg (by rw [hold]; tauto)]
    simp [hold]
  | none =>
    rw [hA] at hold
    simp only [Option.getD_none] at hold
    by_cases hx : x ≠ []
    · rw [if_pos ⟨hx, hold⟩]
      simp [List.find?, hx]
    · rw [if_neg (by tauto)]
      push_neg at hx
      simp [List.find?, hx, hold]

theorem priority_update_spec {C : List RecEntry} {oldP : Slug} (r : RecEntry)
    (hrank : priorityRank oldP = (C.map (fun x => priorityRank x.priority)).foldr min 99)
    (hempty : oldP = [] ↔ ∀ x ∈ C, x.priority = []) :
    (priorityRank (if r.priority ≠ [] ∧ (oldP = [] ∨ priorityRank r.priority < priorityRank oldP)
        then r.priority else oldP)
      = ((C ++ [r]).map (fun x => priorityRank x.priority)).foldr min 99)
    ∧ ((if r.priority ≠ [] ∧ (oldP = [] ∨ priorityRank r.priority < priorityRank oldP)
        then r.priority else oldP) = [] ↔ ∀ x ∈ C ++ [r], x.priority = []) := by
  have hsnoc : ((C ++ [r]).map (fun x => priorityRank x.priority)).foldr min 99 =
      min ((C.map (fun x => priorityRank x.priority)).foldr min 99)
        (priorityRank r.priority) := by
    rw [List.map_append, List.foldr_append]
    simp only [List.map_cons, List.map_nil, List.foldr_cons, List.foldr_nil]
    rw [show min (priorityRank r.priority) 99 = priorityRank r.priority from
      Nat.min_eq_left (priorityRank_le r.priority)]
    exact foldr_min_ext (priorityRank_le r.priority)
  rw [hsnoc, ← hrank]
  by_cases hx : r.priority = []
  · rw [if_neg (by tauto)]
    constructor
    · rw [Nat.min_eq_left]
      rw [hx]
      exact priorityRank_le oldP
    · rw [hempty]
      constructor
      · intro hall x hp
        rcases List.mem_append.mp hp with hp | hp
        · exact hall x hp
        · rw [List.mem_singleton.mp hp, hx]
      · intro hall x hp
        exact hall x (List.mem_append_left _ hp)
  · by_cases hcond : oldP = [] ∨ priorityRank r.priority < priorityRank oldP
    · rw [if_pos ⟨hx, hcond⟩]
      constructor
      · rcases hcond with hc | hc
        · rw [hc]
          have h99 : priorityRank ([] : Slug) = 99 := by decide
          rw [h99, Nat.min_eq_right (priorityRank_le r.priority)]
        · rw [Nat.min_eq_right (Nat.le_of_lt hc)]
      · constructor
        · intro h
          exact absurd h hx
        · intro hall
          exact absurd (hall r (List.mem_append_right _ (List.mem_singleton_self _))) hx
    · rw [if_neg (by tauto)]
      push_neg at hcond
      constructor
      · rw [Nat.min_eq_left (Nat.le_of_not_lt (by
          intro hlt
          exact absurd hlt (by simpa using hcond.2)))]
      · constructor
        · intro h
          exact absurd h hcond.1
        · intro hall
          exact absurd (hall r (List.mem_append_right _ (List.mem_singleton_self _))) hx

theorem fbtFold_spec (cartIds : List Slug) (L : List RecEntry) :
    ((L.foldl (fbtStep cartIds) []).map Prod.fst).Nodup
    ∧ (∀ rid info, (rid, info) ∈ L.foldl (fbtStep cartIds) [] →
        rid ∉ cartIds
        ∧ info.count = (L.filter (fun r => decide (r.id = rid))).length
        ∧ info.label = (((L.filter (fun r => decide (r.id = rid))).map
            RecEntry.label).find? (fun s => decide (s ≠ []))).getD []
        ∧ priorityRank info.priority = ((L.filter (fun r => decide (r.id = rid))).map
            (fun r => priorityRank r.priority)).foldr min 99
        ∧ (info.priority = [] ↔
            ∀ r ∈ L.filter (fun r => decide (r.id = rid)), r.priority = []))
    ∧ (∀ rid, rid ∉ cartIds → (∃ x ∈ L, x.id = rid) →
        rid ∈ (L.foldl (fbtStep cartIds) []).map Prod.fst) := by
  induction L using List.reverseRecOn with
  | nil =>
    refine ⟨by simp, ?_, ?_⟩
    · intro rid info h
      simp at h
    · intro rid h hex
      simp at hex
  | append_singleton M r ihM =>
    obtain ⟨ihN, ihP, ihK⟩ := ihM
    have hfold : (M ++ [r]).foldl (fbtStep cartIds) [] =
        fbtStep cartIds (M.foldl (fbtStep cartIds) []) r := by
      rw [List.foldl_append]
      rfl
    by_cases hcart : r.id ∈ cartIds
    · have hstep : fbtStep cartIds (M.foldl (fbtStep cartIds) []) r =
          M.foldl (fbtStep cartIds) [] := by
        unfold fbtStep
        rw [if_pos hcart]
      rw [hfold, hstep]
      refine ⟨ihN, ?_, ?_⟩
      · intro rid info hmem
        obtain ⟨p1, p2, p3, p4, p5⟩ := ihP rid info hmem
        have hfil : (M ++ [r]).filter (fun r' => decide (r'.id = rid)) =
            M.filter (fun r' => decide (r'.id = rid)) := by
          rw [List.filter_append]
          have hnil : [r].filter (fun r' => decide (r'.id = rid)) = [] := by
            simp only [List.filter_cons, List.filter_nil]
            rw [if_neg]
            simp only [decide_eq_true_eq]
            intro he
            rw [he] at hcart
            exact p1 hcart
          rw [hnil, List.append_nil]
        rw [hfil]
        exact ⟨p1, p2, p3, p4, p5⟩
      · intro rid hrid hex
        obtain ⟨x, hx, hxid⟩ := hex
        rcases List.mem_append.mp hx with hx | hx
        · exact ihK rid hrid ⟨x, hx, hxid⟩
        · rw [List.mem_singleton.mp hx] at hxid
          rw [← hxid] at hrid
          exact absurd hcart hrid
    · have hnewfil : ∀ rid, rid ≠ r.id →
          (M ++ [r]).filter (fun r' => decide (r'.id = rid)) =
            M.filter (fun r' => decide (r'.id = rid)) := by
        intro rid hne
        rw [List.filter_append]
        have hnil : [r].filter (fun r' => decide (r'.id = rid)) = [] := by
          simp only [List.filter_cons, List.filter_nil]
          rw [if_neg]
          simp only [decide_eq_true_eq]
          intro he
          exact hne he.symm
        rw [hnil, List.append_nil]
      have hselffil : (M ++ [r]).filter (fun r' => decide (r'.id = r.id)) =
          M.filter (fun r' => decide (r'.id = r.id)) ++ [r] := by
        rw [List.filter_append]
        have hone : [r].filter (fun r' => decide (r'.id = r.id)) = [r] := by
          simp
        rw [hone]
      cases hfnd : assocFind (M.foldl (fbtStep cartIds) []) r.id with
      | none =>
        have hstep : fbtStep cartIds (M.foldl (fbtStep cartIds) []) r =
            M.foldl (fbtStep cartIds) [] ++ [(r.id, ⟨1, r.label, r.priority⟩)] := by
          simp only [fbtStep]
          rw [if_neg hcart, hfnd]
        rw [hfold, hstep]
        have hkeys : r.id ∉ (M.foldl (fbtStep cartIds) []).map Prod.fst :=
          assocFind_none hfnd
        have hfilM : M.filter (fun r' => decide (r'.id = r.id)) = [] := by
          rw [List.filter_eq_nil_iff]
          intro x hx
          simp only [decide_eq_true_eq]
          intro he
          by_cases hc : x.id ∈ cartIds
          · rw [he] at hc
            exact hcart hc
          · apply hkeys
            rw [← he]
            exact ihK x.id hc ⟨x, hx, rfl⟩
        refine ⟨?_, ?_, ?_⟩
        · rw [List.map_append]
          simp only [List.map_cons, List.map_nil]
          refine List.Nodup.append ihN (List.nodup_singleton _) ?_
          intro a ha hb
          rw [List.mem_singleton.mp hb] at ha
          exact hkeys ha
        · intro rid info hmem
          rcases List.mem_append.mp hmem with hmem | hmem
          · obtain ⟨p1, p2, p3, p4, p5⟩ := ihP rid info hmem
            have hne : rid ≠ r.id := by
              intro he
              apply hkeys
              rw [← he]
              exact List.mem_map.mpr ⟨(rid, info), hmem, rfl⟩
            rw [hnewfil rid hne]
            exact ⟨p1, p2, p3, p4, p5⟩
          · have hpair := List.mem_singleton.mp hmem
            injection hpair with h1 h2
            subst h1
            subst h2
            rw [hselffil, hfilM]
            refine ⟨hcart, by simp, ?_, ?_, ?_⟩
            · simp only [List.nil_append, List.map_cons, List.map_nil]
              by_cases hl : r.label = []
              · simp [List.find?, hl]
              · simp [List.find?, hl]
            · simp only [List.nil_append, List.map_cons, List.map_nil, List.foldr_cons,
                List.foldr_nil]
              exact (Nat.min_eq_left (priorityRank_le r.priority)).symm
            · simp
        · intro rid hrid hex
          obtain ⟨x, hx, hxid⟩ := hex
          rw [List.map_append]
          rcases List.mem_append.mp hx with hx | hx
          · exact List.mem_append_left _ (ihK rid hrid ⟨x, hx, hxid⟩)
          · rw [List.mem_singleton.mp hx] at hxid
            apply List.mem_append_right
            rw [← hxid]
            simp
      | some old =>
        have hstep : fbtStep cartIds (M.foldl (fbtStep cartIds) []) r =
            updateAssoc (M.foldl (fbtStep cartIds) []) r.id (fun i =>
              ⟨i.count + 1,
               if r.label ≠ [] ∧ i.label = [] then r.label else i.label,
               if r.priority ≠ [] ∧ (i.priority = [] ∨
                   priorityRank r.priority < priorityRank i.priority)
               then r.priority else i.priority⟩) := by
          simp only [fbtStep]
          rw [if_neg hcart, hfnd]
        rw [hfold, hstep]
        refine ⟨by rw [updateAssoc_keys]; exact ihN, ?_, ?_⟩
        · intro rid info hmem
          rcases (mem_updateAssoc ihN hfnd).mp hmem with ⟨hne, hmem2⟩ | ⟨heq, hinfo⟩
          · obtain ⟨p1, p2, p3, p4, p5⟩ := ihP rid info hmem2
            rw [hnewfil rid hne]
            exact ⟨p1, p2, p3, p4, p5⟩
          · obtain ⟨p1, p2, p3, p4, p5⟩ := ihP r.id old (assocFind_some_mem hfnd)
            rw [heq, hinfo, hselffil]
            refine ⟨p1, ?_, ?_, ?_, ?_⟩
            · show old.count + 1 = _
              rw [List.length_append, p2]
              rfl
            · show (if r.label ≠ [] ∧ old.label = [] then r.label else old.label) = _
              rw [List.map_append]
              simp only [List.map_cons, List.map_nil]
              exact label_update_spec r.label p3
            · exact (priority_update_spec r p4 p5).1
            · exact (priority_update_spec r p4 p5).2
        · intro rid hrid hex
          obtain ⟨x, hx, hxid⟩ := hex
          rw [updateAssoc_keys]
          rcases List.mem_append.mp hx with hx | hx
          · exact ihK rid hrid ⟨x, hx, hxid⟩
          · rw [List.mem_singleton.mp hx] at hxid
            rw [← hxid]
            exact assocFind_some_key hfnd

/-- C7: cart aggregation in `get_frequently_bought_together`. Every aggregated
recommendation id is absent from the cart; its support count equals the number
of cart list entries whose resolved recommendations include it (the code
iterates over the cart list as given, so duplicate cart entries contribute
once each — see the counterexample for the original "distinct cart items"
reading — and we assume each cart item's resolved recommendation ids are
duplicate-free, as `_apply_recommendation_constraints` guarantees); the kept
label is the first non-empty label among contributors in iteration order; the
kept priority has the lowest (best) rank among contributors; and the ranked
output is ordered by descending support count, then ascending priority rank. -/
theorem C7_fbt_aggregation (cartIds : List Slug) (resolve : Slug → List RecEntry)
    (hnodup : ∀ c ∈ cartIds, ((resolve c).map RecEntry.id).Nodup) :
    (∀ rid info, (rid, info) ∈ fbtInfo cartIds resolve →
        rid ∉ cartIds
        ∧ info.count = cartIds.countP (fun c => decide (rid ∈ (resolve c).map RecEntry.id))
        ∧ info.label = ((((cartIds.flatMap resolve).filter (fun r => decide (r.id = rid))).map
            RecEntry.label).find? (fun s => decide (s ≠ []))).getD []
        ∧ priorityRank info.priority =
            (((cartIds.flatMap resolve).filter (fun r => decide (r.id = rid))).map
              (fun r => priorityRank r.priority)).foldr min 99)
    ∧ (fbtRanked cartIds resolve).Sorted aggLE := by
  have hflat := fbtInfo_eq_flat cartIds resolve
  obtain ⟨hN, hP, hK⟩ := fbtFold_spec cartIds (cartIds.flatMap resolve)
  constructor
  · intro rid info hmem
    rw [hflat] at hmem
    obtain ⟨p1, p2, p3, p4, _⟩ := hP rid info hmem
    refine ⟨p1, ?_, p3, p4⟩
    rw [p2, count_contribs hnodup rid]
  · exact List.sorted_insertionSort aggLE _

/-- C7 counterexample: a cart list with the same id twice gives a support
count of 2 to a recommendation resolved from it, although only 1 distinct
cart item recommends it — the loop counts per cart list entry, not per
distinct cart item. -/
theorem C7_counterexample :
    ∃ info, ((['b'], info) ∈ fbtInfo [(['a'] : Slug), ['a']]
        (fun _ => [(⟨['b'], [], []⟩ : RecEntry)]))
      ∧ info.count = 2
      ∧ ([(['a'] : Slug), ['a']].dedup).length = 1 :=
  ⟨⟨2, [], []⟩, by decide, by decide, by decide⟩

theorem C7_fbt_aggregation_witness :
    (fbtRanked [(['a'] : Slug)]
      (fun c => if c = (['a'] : Slug) then [(⟨['b'], ['L'], []⟩ : RecEntry)] else [])).Sorted
        aggLE :=
  (C7_fbt_aggregation [(['a'] : Slug)]
    (fun c => if c = (['a'] : Slug) then [(⟨['b'], ['L'], []⟩ : RecEntry)] else [])
    (by decide)).2
